import Mathlib

/-!
# Verification of the planning core of the gameHakDatsteam agent

This file gives a shallow embedding of the decision-making layer of the
repository — the `GameStrategy` class of `src/api.py`, the free functions of
`src/algoritm.py`, and the `ThreatAnalyzer` of `src/stategy/behaivour.py`
together with the data model of `src/models/models.py` — and proves or refutes
the frozen claims about it.

Modelling conventions:
* Python `(x, y)` integer tuples become `Cell := ℤ × ℤ`; the `Position`
  dataclass of `models.py` becomes the structure `Position`.
* Python sets of cells become `Finset Cell`.  Python iterates sets in an
  unspecified (hash-dependent) order; where the source iterates a set
  (`min(safe_cells, …)`, `for cell in safe_cells`) we iterate a sorted list,
  a fixed but arbitrary enumeration.  No theorem below depends on that order.
* Python floats (bomb timers, danger values) are idealised as `ℚ` and `ℝ`.
* Unbounded `while` loops are given explicit fuel that provably dominates the
  number of iterations the Python loop can make; running out of fuel yields
  the not-found value, and every theorem below is insensitive to that cutoff.
* `dict.get(key, default)` reads of optional fields are modelled by storing
  the defaulted value in the corresponding structure field.
-/

/-- A grid cell, the Python `(x, y)` tuple of ints. -/
abbrev Cell := ℤ × ℤ

/-- `GameStrategy.manhattan_distance` (src/api.py). -/
def manhattan_distance (a b : Cell) : ℕ :=
  (a.1 - b.1).natAbs + (a.2 - b.2).natAbs

/-- `GameStrategy.get_neighbors` (src/api.py); the same four-neighbour list is
written inline in the loops of src/algoritm.py. -/
def get_neighbors (pos : Cell) : List Cell :=
  [(pos.1 + 1, pos.2), (pos.1 - 1, pos.2), (pos.1, pos.2 + 1), (pos.1, pos.2 - 1)]

/-- `GameStrategy.is_within_bounds` (src/api.py); the same bounds test is
written inline in src/algoritm.py. -/
def is_within_bounds (pos : Cell) (mapSize : ℕ × ℕ) : Prop :=
  0 ≤ pos.1 ∧ pos.1 < (mapSize.1 : ℤ) ∧ 0 ≤ pos.2 ∧ pos.2 < (mapSize.2 : ℤ)

instance (pos : Cell) (mapSize : ℕ × ℕ) : Decidable (is_within_bounds pos mapSize) := by
  unfold is_within_bounds; infer_instance

/-- A bomb record of the api.py arena data.  The source reads `timer` via
`bomb.get('timer', 10)` and `range` via `bomb.get('range', 1)`; an absent field
is represented here by the defaulted value. -/
structure BombData where
  pos : Cell
  timer : ℚ
  range : ℕ
deriving DecidableEq

/-- A bomber record as read by api.py/algoritm.py.  Optional capability fields
read through `.get(key, default)` in the source are stored defaulted. -/
structure Bomber where
  id : String
  pos : Cell
  alive : Bool
  canMove : Bool
  bombsAvailable : ℕ
  canPassObstacles : Bool
  canPassBombs : Bool
  speed : ℚ
deriving DecidableEq

/-- The per-tick arena snapshot consumed by `GameStrategy` (src/api.py):
`arena_data['map_size']`, `arena_data['arena']` contents, `enemies` (reduced to
their `pos` fields, as the source does), `mobs` (likewise reduced to `pos`),
and `bombers`. -/
structure ArenaData where
  mapSize : ℕ × ℕ
  obstacles : List Cell
  walls : List Cell
  bombs : List BombData
  enemies : List Cell
  mobs : List Cell
  bombers : List Bomber
deriving DecidableEq

/-- A per-unit wire command: id, path, bomb cells. -/
structure Command where
  id : String
  path : List Cell
  bombs : List Cell
deriving DecidableEq

/-- The `{'bombers': [...]}` output structure. -/
structure MoveCommands where
  bombers : List Command
deriving DecidableEq

/-- `self.bomb_timer_threshold = 2.0` (src/api.py). -/
def bomb_timer_threshold : ℚ := 2

/-- `self.max_path_length = 30` (src/api.py). -/
def max_path_length : ℕ := 30

/-- The inner directional loop of `GameStrategy.get_dangerous_cells`
(src/api.py lines 63-74): walk outward from `p` in direction `d` for at most
the given number of steps; stop without marking on leaving the map, mark and
stop on a wall or obstacle, otherwise mark and continue. -/
def blast_walk (p d : Cell) (obstacles walls : Finset Cell) (mapSize : ℕ × ℕ) : ℕ → Finset Cell
  | 0 => ∅
  | r + 1 =>
    let n : Cell := (p.1 + d.1, p.2 + d.2)
    if ¬ is_within_bounds n mapSize then ∅
    else if n ∈ walls ∨ n ∈ obstacles then {n}
    else insert n (blast_walk n d obstacles walls mapSize r)

/-- `GameStrategy.get_dangerous_cells` (src/api.py): cells endangered by bombs
whose timer is at most the threshold (`if bomb.get('timer', 10) >
self.bomb_timer_threshold: continue`). -/
def get_dangerous_cells (bombs : List BombData) (obstacles walls : Finset Cell)
    (mapSize : ℕ × ℕ) : Finset Cell :=
  bombs.foldl (fun dangerous bomb =>
    if bomb_timer_threshold < bomb.timer then dangerous
    else
      dangerous ∪ {bomb.pos}
        ∪ blast_walk bomb.pos (1, 0) obstacles walls mapSize bomb.range
        ∪ blast_walk bomb.pos (-1, 0) obstacles walls mapSize bomb.range
        ∪ blast_walk bomb.pos (0, 1) obstacles walls mapSize bomb.range
        ∪ blast_walk bomb.pos (0, -1) obstacles walls mapSize bomb.range) ∅

/-- `GameStrategy.get_passable_cells` (src/api.py): every in-bounds cell except
walls, obstacles (unless `can_pass_obstacles`) and bomb cells (unless
`can_pass_bombs`). -/
def get_passable_cells (bomber : Bomber) (mapSize : ℕ × ℕ)
    (obstacles walls : Finset Cell) (bombs : List BombData) : Finset Cell :=
  ((List.range mapSize.1).flatMap fun (x : ℕ) =>
    (List.range mapSize.2).filterMap fun (y : ℕ) =>
      let cell : Cell := ((x : ℤ), (y : ℤ))
      if cell ∈ walls then none
      else if cell ∈ obstacles ∧ bomber.canPassObstacles = false then none
      else if (bombs.any fun b => decide (b.pos = cell)) ∧ bomber.canPassBombs = false then none
      else some cell).toFinset

/-! ## A* pathfinder (`GameStrategy.a_star`, src/api.py)

`heapq` keeps tuples `(f, (x, y))` and always pops the least tuple with
respect to Python's lexicographic tuple order; two entries compare equal only
when they are identical, so popping the first minimum of the open list with
respect to the same lexicographic order is an exact model of `heappop`.
The write-only `f_score` dict of the source is omitted: it is never read. -/

/-- Python's lexicographic order on `(f, (x, y))` heap entries. -/
def heap_le (a b : ℕ × Cell) : Prop :=
  a.1 < b.1 ∨ (a.1 = b.1 ∧ (a.2.1 < b.2.1 ∨ (a.2.1 = b.2.1 ∧ a.2.2 ≤ b.2.2)))

instance (a b : ℕ × Cell) : Decidable (heap_le a b) := by
  unfold heap_le; infer_instance

/-- The least entry of the open list (ties keep the earlier element;
a tie is an identical entry, so the choice is immaterial). -/
def find_min : List (ℕ × Cell) → Option (ℕ × Cell)
  | [] => none
  | e :: rest =>
    match find_min rest with
    | none => some e
    | some m => some (if heap_le e m then e else m)

/-- `heapq.heappop`: remove and return the least entry. -/
def pop_min (l : List (ℕ × Cell)) : Option ((ℕ × Cell) × List (ℕ × Cell)) :=
  match find_min l with
  | none => none
  | some m => some (m, l.erase m)

/-- The mutable state of the `a_star` while-loop. -/
structure AStarState where
  openList : List (ℕ × Cell)
  cameFrom : Cell → Option Cell
  gScore : Cell → Option ℕ

/-- The path reconstruction loop of `a_star` (`while current in came_from`),
building the pre-reversal list.  The Python loop terminates because
`came_from` chains strictly decrease `g_score`; the fuel passed at the call
site dominates every chain length. -/
def reconstruct_path (cf : Cell → Option Cell) : ℕ → Cell → List Cell
  | 0, _ => []
  | fuel + 1, cur =>
    match cf cur with
    | none => []
    | some prev => cur :: reconstruct_path cf fuel prev

/-- The body of the neighbour loop of `a_star`: skip cells outside `passable`,
skip when the tentative g-score reaches `max_steps`, otherwise relax.
`g_score[current]` is always present when `current` was popped from the open
list (every pushed cell has a g-score), so the `getD` default is inert. -/
def relax_neighbor (goal : Cell) (passable : Finset Cell) (maxSteps : ℕ) (cur : Cell)
    (st : AStarState) (nb : Cell) : AStarState :=
  if nb ∉ passable then st
  else
    let tentativeG := (st.gScore cur).getD 0 + 1
    if maxSteps ≤ tentativeG then st
    else if (st.gScore nb).isNone ∨ tentativeG < (st.gScore nb).getD 0 then
      { openList := (tentativeG + manhattan_distance nb goal, nb) :: st.openList
        cameFrom := fun c => if c = nb then some cur else st.cameFrom c
        gScore := fun c => if c = nb then some tentativeG else st.gScore c }
    else st

/-- The `while open_set:` loop of `a_star`. -/
def a_star_loop (goal : Cell) (passable : Finset Cell) (maxSteps : ℕ) :
    ℕ → AStarState → Option (List Cell)
  | 0, _ => none
  | fuel + 1, st =>
    match pop_min st.openList with
    | none => none
    | some (entry, rest) =>
      let current := entry.2
      if current = goal then
        some ((reconstruct_path st.cameFrom maxSteps goal).reverse.take maxSteps)
      else
        a_star_loop goal passable maxSteps fuel
          ((get_neighbors current).foldl (relax_neighbor goal passable maxSteps current)
            { st with openList := rest })

/-- `GameStrategy.a_star` (src/api.py).  Call sites pass `max_steps`
explicitly; the Python default `None` means `self.max_path_length = 30`.
The fuel `passable.card * maxSteps + 2` dominates the number of loop
iterations (each cell is pushed at most `maxSteps` times, since its g-score
strictly decreases below `maxSteps` at each re-push). -/
def a_star (start goal : Cell) (passable : Finset Cell) (maxSteps : ℕ) :
    Option (List Cell) :=
  if start ∉ passable ∨ goal ∉ passable then none
  else
    a_star_loop goal passable maxSteps (passable.card * maxSteps + 2)
      { openList := [(0, start)]
        cameFrom := fun _ => none
        gScore := fun c => if c = start then some 0 else none }

/-- A fixed lexicographic order used to enumerate cell sets where the Python
source iterates a set in unspecified hash order. -/
def cell_le (a b : Cell) : Prop := a.1 < b.1 ∨ (a.1 = b.1 ∧ a.2 ≤ b.2)

instance : DecidableRel cell_le := fun a b => by unfold cell_le; infer_instance

instance : IsTrans Cell cell_le :=
  ⟨by intro a b c hab hbc; unfold cell_le at *; omega⟩

instance : IsAntisymm Cell cell_le :=
  ⟨by
    intro a b hab hba
    unfold cell_le at *
    have h1 : a.1 = b.1 := by omega
    have h2 : a.2 = b.2 := by omega
    exact Prod.ext h1 h2⟩

instance : IsTotal Cell cell_le :=
  ⟨by intro a b; unfold cell_le; omega⟩

/-- Enumerate a cell set in the fixed lexicographic order (the Python source
iterates the corresponding set in unspecified hash order; no claim below
depends on the enumeration order).  Implemented by insertion sort, which the
kernel can evaluate. -/
def cell_list (s : Finset Cell) : List Cell :=
  Quotient.liftOn s.val (fun l => List.insertionSort cell_le l) fun a b hab =>
    List.eq_of_perm_of_sorted
      ((List.perm_insertionSort cell_le a).trans
        (hab.trans (List.perm_insertionSort cell_le b).symm))
      (List.sorted_insertionSort cell_le a) (List.sorted_insertionSort cell_le b)

/-- Python's `min(..., key=f)` over a list: the first element attaining the
minimal key. -/
def argmin_by (f : Cell → ℕ) : List Cell → Option Cell
  | [] => none
  | x :: xs =>
    match argmin_by f xs with
    | none => some x
    | some m => some (if f x ≤ f m then x else m)

/-- The running `min_dist` of `find_best_target`, `None` playing the role of
`float('inf')`. -/
def better_dist (dist : ℕ) : Option ℕ → Bool
  | none => true
  | some m => dist < m

/-- `GameStrategy.find_best_target` (src/api.py): nearest target (strictly
improving distance, so the first of equally near targets wins) that is
passable and not dangerous. -/
def find_best_target (bomberPos : Cell) (targets : List Cell)
    (dangerousCells passableCells : Finset Cell) : Option Cell :=
  (targets.foldl (fun best target =>
    let dist := manhattan_distance bomberPos target
    if better_dist dist best.2 ∧ target ∈ passableCells ∧ target ∉ dangerousCells then
      (some target, some dist)
    else best) ((none : Option Cell), (none : Option ℕ))).1

/-- The final fallback of `plan_bomber_action`: stand still. -/
def idle_command (bomber : Bomber) : Command := ⟨bomber.id, [bomber.pos], []⟩

/-- The emergency-retreat stage of `plan_bomber_action` (src/api.py lines
184-195); `none` means fall through to the next stage (a Python `if path:`
guard treats both `None` and `[]` as failure). -/
def retreat_phase (bomber : Bomber) (dangerousCells passableCells : Finset Cell) :
    Option Command :=
  let pos := bomber.pos
  if pos ∈ dangerousCells then
    let safeCells := passableCells \ dangerousCells
    if safeCells.Nonempty then
      match argmin_by (manhattan_distance pos) (cell_list safeCells) with
      | none => none
      | some nearestSafe =>
        match a_star pos nearestSafe passableCells 10 with
        | none => none
        | some path => if path = [] then none else some ⟨bomber.id, path, []⟩
    else none
  else none

/-- The attack stage of `plan_bomber_action` (src/api.py lines 197-227):
approach the best target, place a bomb on a free neighbour of it and escape.
`targets = list(obstacles) + enemies`. -/
def attack_phase (bomber : Bomber) (obstacles : Finset Cell) (enemies : List Cell)
    (dangerousCells passableCells : Finset Cell) : Option Command :=
  let pos := bomber.pos
  let targets := cell_list obstacles ++ enemies
  match find_best_target pos targets dangerousCells passableCells with
  | none => none
  | some target =>
    if 0 < bomber.bombsAvailable then
      let safePassable := passableCells \ dangerousCells
      match a_star pos target safePassable 30 with
      | none => none
      | some pathToTarget =>
        if pathToTarget = [] then none
        else
          match (get_neighbors target).find? (fun nb => decide (nb ∈ safePassable)) with
          | none => none
          | some bombCell =>
            let safeAfterBomb := safePassable.erase bombCell
            if safeAfterBomb.Nonempty then
              match argmin_by (manhattan_distance bombCell) (cell_list safeAfterBomb) with
              | none => none
              | some safeTarget =>
                match a_star bombCell safeTarget safeAfterBomb 15 with
                | none => none
                | some escapePath =>
                  if escapePath = [] then none
                  else some ⟨bomber.id, (pathToTarget ++ bombCell :: escapePath).take 30,
                             [bombCell]⟩
            else none
    else none

/-- The inner preference loop of the reposition stage: the nearest safe cell
having an obstacle neighbour (`for cell in safe_cells: … for neighbor in
self.get_neighbors(cell): if neighbor in obstacles: …`). -/
def best_safe_candidate (pos : Cell) (obstacles : Finset Cell) (safeList : List Cell) :
    Option Cell :=
  (safeList.foldl (fun best cell =>
    let dist := manhattan_distance pos cell
    if ((get_neighbors cell).any fun nb => decide (nb ∈ obstacles)) ∧ better_dist dist best.2 then
      (some cell, some dist)
    else best) ((none : Option Cell), (none : Option ℕ))).1

/-- The reposition stage of `plan_bomber_action` (src/api.py lines 229-255).
`safe_cells` is nonempty in the `getD` fallback, so the default is inert. -/
def reposition_phase (bomber : Bomber) (obstacles dangerousCells passableCells : Finset Cell) :
    Option Command :=
  let pos := bomber.pos
  let safeCells := passableCells \ dangerousCells
  if safeCells.Nonempty then
    let bestSafe :=
      match best_safe_candidate pos obstacles (cell_list safeCells) with
      | some c => c
      | none => (argmin_by (manhattan_distance pos) (cell_list safeCells)).getD pos
    match a_star pos bestSafe safeCells 30 with
    | none => none
    | some path => if path = [] then none else some ⟨bomber.id, path.take 30, []⟩
  else none

/-- The dangerous-cell set computed at the top of `plan_bomber_action`:
`get_dangerous_cells` plus every mob position. -/
def plan_dangerous_cells (arena : ArenaData) : Finset Cell :=
  arena.mobs.foldl (fun s mobPos => insert mobPos s)
    (get_dangerous_cells arena.bombs arena.obstacles.toFinset arena.walls.toFinset
      arena.mapSize)

/-- The passable-cell set computed in `plan_bomber_action`. -/
def plan_passable_cells (bomber : Bomber) (arena : ArenaData) : Finset Cell :=
  get_passable_cells bomber arena.mapSize arena.obstacles.toFinset arena.walls.toFinset
    arena.bombs

/-- `GameStrategy.plan_bomber_action` (src/api.py lines 162-262): the first
stage that returns a command wins; otherwise idle in place. -/
def plan_bomber_action (bomber : Bomber) (arena : ArenaData) : Command :=
  let obstacles := arena.obstacles.toFinset
  let dangerousCells := plan_dangerous_cells arena
  let passableCells := plan_passable_cells bomber arena
  (((retreat_phase bomber dangerousCells passableCells).orElse fun _ =>
      attack_phase bomber obstacles arena.enemies dangerousCells passableCells).orElse fun _ =>
      reposition_phase bomber obstacles dangerousCells passableCells).getD
    (idle_command bomber)

/-- `GameStrategy.generate_commands` (src/api.py lines 264-273): one command
per alive, movable bomber, in input order. -/
def generate_commands (arena : ArenaData) : MoveCommands :=
  ⟨(arena.bombers.filter fun b => b.alive && b.canMove).map fun b =>
    plan_bomber_action b arena⟩

/-! ## Free functions of src/algoritm.py -/

/-- The arena dict consumed by the algoritm.py functions.  Bomb entries are
reduced to their positions: the source accepts either dict or bare-pair
entries and immediately projects both to the position tuple. -/
structure ArenaLists where
  obstacles : List Cell
  walls : List Cell
  bombs : List Cell
deriving DecidableEq

/-- The `while queue:` loop of `find_path` (src/algoritm.py lines 236-251).
The queue holds `(current, path)` pairs; popping is from the left and
appending to the right (FIFO).  The fuel passed at the call site dominates
the iteration count: every enqueue adds a fresh cell to `visited`, which can
only reach the in-bounds cells plus the start. -/
def bfs_loop (goal : Cell) (blocked : Finset Cell) (mapSize : ℕ × ℕ) (maxLen : ℕ) :
    ℕ → List (Cell × List Cell) → Finset Cell → List Cell
  | 0, _, _ => []
  | _ + 1, [], _ => []
  | fuel + 1, (cur, path) :: queue, visited =>
    if cur = goal then path.take maxLen
    else if maxLen ≤ path.length then bfs_loop goal blocked mapSize maxLen fuel queue visited
    else
      let expanded := (get_neighbors cur).foldl (fun qv nxt =>
        if is_within_bounds nxt mapSize ∧ nxt ∉ qv.2 ∧ nxt ∉ blocked then
          (qv.1 ++ [(nxt, path ++ [nxt])], insert nxt qv.2)
        else qv) (queue, visited)
      bfs_loop goal blocked mapSize maxLen fuel expanded.1 expanded.2

/-- `find_path` (src/algoritm.py lines 226-252): breadth-first search that
returns the path as a list of cells, or the empty list when no path is found.
Call sites use the default `max_len = 30`. -/
def find_path (start goal : Cell) (blocked : Finset Cell) (mapSize : ℕ × ℕ)
    (maxLen : ℕ) : List Cell :=
  if start = goal then [start]
  else
    bfs_loop goal blocked mapSize maxLen (mapSize.1 * mapSize.2 + 2)
      [(start, [start])] {start}

/-- A candidate entry produced by `find_bomb_targets`. -/
structure TargetRec where
  pos : Cell
  score : ℕ
  destroyed : Finset Cell
deriving DecidableEq

/-- The descending-score order of the final Python
`sorted(targets, key=..., reverse=True)`; insertion sort with this relation
is stable, like Python's sort. -/
def target_le (a b : TargetRec) : Prop := b.score ≤ a.score

instance : DecidableRel target_le := fun a b => by unfold target_le; infer_instance

instance : IsTotal TargetRec target_le := ⟨fun a b => (le_total b.score a.score)⟩

instance : IsTrans TargetRec target_le :=
  ⟨fun _ _ _ hab hbc => le_trans hbc hab⟩

/-- The blast directions of `find_bomb_targets`, in source order. -/
def fbt_dirs : List Cell := [(0, 1), (0, -1), (1, 0), (-1, 0)]

/-- The cell `k` steps from `p` in direction `d`. -/
def ray_cell (p d : Cell) (k : ℕ) : Cell :=
  (p.1 + d.1 * k, p.2 + d.2 * k)

/-- One blast ray of `find_bomb_targets`: the first obstacle met within
`bombRange` steps (the ray stops on it).  The source consults neither walls
nor map bounds on the ray. -/
def ray_first_obstacle (obstacles : Finset Cell) (pos d : Cell) (bombRange : ℕ) :
    Option Cell :=
  ((List.range' 1 bombRange).find? fun (k : ℕ) =>
    decide (ray_cell pos d k ∈ obstacles)).map fun (k : ℕ) => ray_cell pos d k

/-- The `destroyed` collection of one candidate cell, in direction order.
Different directions hit different cells, so this list is the `destroyed`
set of the source with a fixed enumeration. -/
def destroyed_list (obstacles : Finset Cell) (pos : Cell) (bombRange : ℕ) : List Cell :=
  fbt_dirs.filterMap fun d => ray_first_obstacle obstacles pos d bombRange

/-- The `for x in range(width): for y in range(height):` scan order. -/
def cell_grid (mapSize : ℕ × ℕ) : List Cell :=
  (List.range mapSize.1).flatMap fun (x : ℕ) =>
    (List.range mapSize.2).map fun (y : ℕ) => ((x : ℤ), (y : ℤ))

/-- One iteration of the candidate scan of `find_bomb_targets`: the loop
body of `for x in range(...): for y in range(...):`, carried over the
accumulator `(seen_destroyed_sets, targets)`. -/
def fbt_step (obstacles : Finset Cell) (bombRange : ℕ)
    (acc : Finset (Finset Cell) × List TargetRec) (cell : Cell) :
    Finset (Finset Cell) × List TargetRec :=
  let destroyed := destroyed_list obstacles cell bombRange
  if destroyed = [] then acc
  else
    let frozen := (destroyed.take 4).toFinset
    if frozen ∈ acc.1 then acc
    else
      let n := frozen.card
      (insert frozen acc.1, acc.2 ++ [⟨cell, n * (n + 1) / 2, frozen⟩])

/-- `find_bomb_targets` (src/algoritm.py lines 108-157): for every map cell
the set of obstacles destroyed by a bomb there, candidates with a previously
seen destroyed set skipped, scored `n * (n + 1) / 2` on the size of
`destroyed_frozen = frozenset(list(destroyed)[:4])` (the truncation to 4 is
inert: at most one obstacle per direction), and stably sorted by descending
score as Python `sorted(..., reverse=True)` does. -/
def find_bomb_targets (arena : ArenaLists) (mapSize : ℕ × ℕ) (bombRange : ℕ) :
    List TargetRec :=
  let obstacles := arena.obstacles.toFinset
  if obstacles = ∅ then []
  else
    List.insertionSort target_le
      ((cell_grid mapSize).foldl (fbt_step obstacles bombRange) (∅, [])).2

/-- A task produced by `assign_tasks_to_bombers`. -/
inductive TaskType
  | bomb
  | explore
deriving DecidableEq

/-- The `{"type": ..., "target": ...}` task dict. -/
structure BomberTask where
  type : TaskType
  target : Cell
deriving DecidableEq

/-- `sorted(alive_bombers, key=lambda b: b["id"])`: the stable ascending
lexicographic order on unit ids (Python compares strings by code point,
which is exactly list order on the characters; stated on `.data` so the
kernel can evaluate it). -/
def bomber_id_le (a b : Bomber) : Prop := ¬ b.id.data < a.id.data

instance : DecidableRel bomber_id_le := fun a b => by unfold bomber_id_le; infer_instance

/-- One dict update `assignments[bomber_id] = task`. -/
def upd_assign (asg : String → Option BomberTask) (bid : String) (t : BomberTask) :
    String → Option BomberTask :=
  fun k => if k = bid then some t else asg k

/-- The first loop of `assign_tasks_to_bombers`: over bombers sorted by id,
give each the nearest still-unused target position (a returned minimum is a
cell tuple, hence always truthy for the `if best:` guard). -/
def assign_bomb_loop : List Bomber → List Cell → Finset Cell → (String → Option BomberTask) →
    List Cell × Finset Cell × (String → Option BomberTask)
  | [], tps, used, asg => (tps, used, asg)
  | b :: rest, tps, used, asg =>
    if tps = [] then (tps, used, asg)
    else
      match argmin_by (manhattan_distance b.pos) (tps.filter fun t => decide (t ∉ used)) with
      | none => assign_bomb_loop rest tps used asg
      | some best =>
        assign_bomb_loop rest (tps.erase best) (insert best used)
          (upd_assign asg b.id ⟨TaskType.bomb, best⟩)

/-- The second loop of `assign_tasks_to_bombers`: every still-unassigned alive
bomber receives an exploration target drawn from the random source. -/
def assign_explore_loop (rand : ℕ → Cell) : List Bomber → ℕ → (String → Option BomberTask) →
    (String → Option BomberTask)
  | [], _, asg => asg
  | b :: rest, k, asg =>
    match asg b.id with
    | some _ => assign_explore_loop rand rest k asg
    | none =>
      assign_explore_loop rand rest (k + 1) (upd_assign asg b.id ⟨TaskType.explore, rand k⟩)

/-- `assign_tasks_to_bombers` (src/algoritm.py lines 159-197).  The
`random.randint` draws for exploration targets are modelled by the oracle
`rand`: its k-th value stands for the k-th pair of draws (the `map_size`
bounds of the draws are a property of the oracle, not of the assignment
logic).  The returned dict is modelled as a lookup function. -/
def assign_tasks_to_bombers (bombers : List Bomber) (targets : List TargetRec)
    (rand : ℕ → Cell) : String → Option BomberTask :=
  let aliveBombers := bombers.filter fun b => b.alive
  if aliveBombers = [] then fun _ => none
  else
    let sortedAlive := List.insertionSort bomber_id_le aliveBombers
    let step1 := assign_bomb_loop sortedAlive (targets.map fun t => t.pos) ∅ (fun _ => none)
    assign_explore_loop rand aliveBombers 0 step1.2.2

/-- `1 if target > cur else -1 if target < cur else 0`. -/
def step_sign (target cur : ℤ) : ℤ :=
  if cur < target then 1 else if target < cur then -1 else 0

/-- The explore walk of `generate_command` (src/algoritm.py lines 278-298):
up to `max_steps` greedy steps toward the target, x before y, checking only
the moved coordinate against the map bounds; an iteration moving neither way
leaves the state unchanged (the Python loop has no break). -/
def explore_walk (blocked : Finset Cell) (mapSize : ℕ × ℕ) (dx dy : ℤ) :
    ℕ → Cell → List Cell → List Cell
  | 0, _, path => path
  | k + 1, cur, path =>
    if dx ≠ 0 ∧ 0 ≤ cur.1 + dx ∧ cur.1 + dx < (mapSize.1 : ℤ) ∧
        ((cur.1 + dx, cur.2) : Cell) ∉ blocked then
      explore_walk blocked mapSize dx dy k (cur.1 + dx, cur.2) (path ++ [(cur.1 + dx, cur.2)])
    else if dy ≠ 0 ∧ 0 ≤ cur.2 + dy ∧ cur.2 + dy < (mapSize.2 : ℤ) ∧
        ((cur.1, cur.2 + dy) : Cell) ∉ blocked then
      explore_walk blocked mapSize dx dy k (cur.1, cur.2 + dy) (path ++ [(cur.1, cur.2 + dy)])
    else explore_walk blocked mapSize dx dy k cur path

/-- `generate_command` (src/algoritm.py lines 254-303).  `max(1, int(speed *
dt_seconds))` equals `max 1 ⌊speed * dt⌋.toNat` for every rational speed. -/
def generate_command (bomber : Bomber) (task : BomberTask) (arena : ArenaLists)
    (mapSize : ℕ × ℕ) (dtSeconds : ℚ) : Command :=
  let pos := bomber.pos
  let target := task.target
  let blocked := arena.walls.toFinset ∪
    (if bomber.canPassBombs then ∅ else arena.bombs.toFinset)
  match task.type with
  | TaskType.bomb =>
    let path0 := find_path pos target blocked mapSize 30
    let path := if path0 = [] then [pos] else path0
    ⟨bomber.id, path.take 30, if target ∈ path then [target] else []⟩
  | TaskType.explore =>
    let maxSteps := max 1 (bomber.speed * dtSeconds).floor.toNat
    let dx := step_sign target.1 pos.1
    let dy := step_sign target.2 pos.2
    ⟨bomber.id, (explore_walk blocked mapSize dx dy maxSteps pos [pos]).take 30, []⟩

/-! ## Data model of src/models/models.py and the ThreatAnalyzer of
src/stategy/behaivour.py -/

/-- The `Position` dataclass (src/models/models.py). -/
structure Position where
  x : ℤ
  y : ℤ
deriving DecidableEq

/-- The `Bomb` dataclass (src/models/models.py); the float timer is
idealised as a rational. -/
structure Bomb where
  pos : Position
  timer : ℚ
  radius : ℕ
  owner : String
deriving DecidableEq

/-- The `Mob` dataclass (src/models/models.py). -/
structure Mob where
  id : String
  type : String
  pos : Position
  safeTime : ℤ
deriving DecidableEq

/-- The `Bomber` dataclass of src/models/models.py. -/
structure BomberModel where
  id : String
  alive : Bool
  pos : Position
  armor : ℤ
  bombsAvailable : ℕ
  canMove : Bool
  safeTime : ℤ
deriving DecidableEq

/-- The `GameState` dataclass (src/models/models.py); the bombers dict is an
association list, enemy dicts are opaque (the analyzer ignores them), and the
optional `upgrades` field is omitted as unused by the analyzed code. -/
structure GameState where
  playerName : String
  roundId : String
  mapSize : ℕ × ℕ
  rawScore : ℤ
  bombers : List (String × BomberModel)
  obstacles : List Position
  walls : List Position
  bombs : List Bomb
  mobs : List Mob
  enemies : List Unit
deriving DecidableEq

/-- The `danger_zones` dict of `ThreatAnalyzer`, read through
`get_danger_level` which defaults absent keys to 0: modelled as a total map
defaulting to 0.  Danger values are idealised as reals (the ghost formula
involves a square root). -/
abbrev DMap := (ℤ × ℤ) → ℝ

/-- `ThreatAnalyzer._set_danger` (src/stategy/behaivour.py lines 66-72):
max-combine into the cell.  Writing `v` to an absent key coincides with
`max 0 v` because every value the analyzer writes is at least 10. -/
def set_danger (x y : ℤ) (value : ℝ) (m : DMap) : DMap :=
  fun p => if p = (x, y) then max (m p) value else m p

/-- A sequence of `_set_danger` calls, in order. -/
def apply_marks (marks : List (ℤ × ℤ × ℝ)) (m : DMap) : DMap :=
  marks.foldl (fun acc e => set_danger e.1 e.2.1 e.2.2 acc) m

/-- The `_set_danger` calls issued by `ThreatAnalyzer._mark_bomb_danger`
(src/stategy/behaivour.py lines 25-40), in source order: the centre at 100,
then the horizontal cross arms at 80, then the vertical ones.  Neither the
bomb timer nor walls/obstacles are consulted. -/
def bomb_marks (bomb : Bomb) : List (ℤ × ℤ × ℝ) :=
  (bomb.pos.x, bomb.pos.y, 100) ::
    (((List.range' 1 bomb.radius).flatMap fun (dx : ℕ) =>
      [(bomb.pos.x + (dx : ℤ), bomb.pos.y, (80 : ℝ)),
       (bomb.pos.x - (dx : ℤ), bomb.pos.y, (80 : ℝ))]) ++
     ((List.range' 1 bomb.radius).flatMap fun (dy : ℕ) =>
      [(bomb.pos.x, bomb.pos.y + (dy : ℤ), (80 : ℝ)),
       (bomb.pos.x, bomb.pos.y - (dy : ℤ), (80 : ℝ))]))

/-- `ThreatAnalyzer._mark_bomb_danger`. -/
def mark_bomb_danger (bomb : Bomb) (m : DMap) : DMap :=
  apply_marks (bomb_marks bomb) m

/-- `range(-10, 11)` and friends. -/
def int_range (a b : ℤ) : List ℤ :=
  (List.range (b - a).toNat).map fun (i : ℕ) => a + (i : ℤ)

/-- The `_set_danger` calls issued for a ghost mob (src/stategy/behaivour.py
lines 51-58): every offset within Euclidean distance 10, at
`max(10, 70 - distance * 3)`. -/
noncomputable def ghost_marks (pos : Position) : List (ℤ × ℤ × ℝ) :=
  (int_range (-10) 11).flatMap fun (dx : ℤ) =>
    (int_range (-10) 11).filterMap fun (dy : ℤ) =>
      let distance := Real.sqrt ((dx : ℝ) ^ 2 + (dy : ℝ) ^ 2)
      if distance ≤ 10 then some ((pos.x + dx, pos.y + dy, max 10 (70 - distance * 3)) : ℤ × ℤ × ℝ)
      else none

/-- The `_set_danger` calls issued by `ThreatAnalyzer._mark_mob_danger`. -/
noncomputable def mob_marks (mob : Mob) : List (ℤ × ℤ × ℝ) :=
  if mob.type = "patrol" then [(mob.pos.x, mob.pos.y, (60 : ℝ))]
  else if mob.type = "ghost" then ghost_marks mob.pos
  else []

/-- `ThreatAnalyzer._mark_mob_danger`. -/
noncomputable def mark_mob_danger (mob : Mob) (m : DMap) : DMap :=
  apply_marks (mob_marks mob) m

/-- `ThreatAnalyzer._mark_enemy_danger` is `pass`. -/
def mark_enemy_danger (_enemy : Unit) (m : DMap) : DMap := m

/-- `ThreatAnalyzer.analyze_threats` (src/stategy/behaivour.py lines 9-23):
reset the danger map, then mark bombs, mobs and enemies in input order. -/
noncomputable def analyze_threats (st : GameState) : DMap :=
  st.enemies.foldl (fun m e => mark_enemy_danger e m)
    (st.mobs.foldl (fun m mob => mark_mob_danger mob m)
      (st.bombs.foldl (fun m bomb => mark_bomb_danger bomb m) fun _ => 0))

/-- `ThreatAnalyzer.get_danger_level`. -/
noncomputable def get_danger_level (m : DMap) (pos : Position) : ℝ :=
  m (pos.x, pos.y)

/-! ## Spec-side definitions used to state the claims -/

/-- The blast directions of `get_dangerous_cells` (src/api.py), in source
order. -/
def api_dirs : List Cell := [(1, 0), (-1, 0), (0, 1), (0, -1)]

/-- Spec wording of one blast arm (claim C4): `c` lies `k ≤ r` steps along
`d`, every strictly earlier ray cell is inside the map and neither a wall nor
an obstacle, and `c` itself is inside the map. -/
def spec_blast_cell (obstacles walls : Finset Cell) (mapSize : ℕ × ℕ)
    (p d c : Cell) (r : ℕ) : Prop :=
  ∃ k, 1 ≤ k ∧ k ≤ r ∧ c = ray_cell p d k ∧ is_within_bounds c mapSize ∧
    ∀ j, 1 ≤ j → j < k →
      is_within_bounds (ray_cell p d j) mapSize ∧
      ray_cell p d j ∉ walls ∧ ray_cell p d j ∉ obstacles

/-- Spec wording of the whole danger rule of `get_dangerous_cells` (claim
C4): a cell is dangerous iff some bomb with timer at most the imminence
threshold covers it, either as its own cell or along one of the four blast
arms with the stop-at-wall/obstacle rule. -/
def spec_dangerous (bombs : List BombData) (obstacles walls : Finset Cell)
    (mapSize : ℕ × ℕ) (c : Cell) : Prop :=
  ∃ b ∈ bombs, b.timer ≤ bomb_timer_threshold ∧
    (c = b.pos ∨ ∃ d ∈ api_dirs, spec_blast_cell obstacles walls mapSize b.pos d c b.range)

/-- The passability notion of claims C2/C3 for `find_path`: inside the map
and not blocked. -/
def bfs_passable (blocked : Finset Cell) (mapSize : ℕ × ℕ) (c : Cell) : Prop :=
  is_within_bounds c mapSize ∧ c ∉ blocked

instance (blocked : Finset Cell) (mapSize : ℕ × ℕ) (c : Cell) :
    Decidable (bfs_passable blocked mapSize c) := by
  unfold bfs_passable; infer_instance

/-- The path contract of claim C2, minus the start cell (whose passability
`find_path` never checks): endpoints, 4-adjacency of consecutive cells, no
repeats, bounded length, and passability of every cell after the first. -/
def bfs_result_ok (start goal : Cell) (blocked : Finset Cell) (mapSize : ℕ × ℕ)
    (maxLen : ℕ) (p : List Cell) : Prop :=
  p.head? = some start ∧ p.getLast? = some goal ∧
  List.Chain' (fun a b => manhattan_distance a b = 1) p ∧ p.Nodup ∧
  p.length ≤ maxLen ∧ ∀ c ∈ p.tail, bfs_passable blocked mapSize c

/-- Spec wording of the destroyed set of a candidate bomb cell (claim C6):
the obstacles that are the first obstacle within `r` steps along one of the
four axis directions — the source applies no wall or bounds test on the ray. -/
def destroyed_spec_pred (obstacles : Finset Cell) (pos : Cell) (r : ℕ) (c : Cell) : Prop :=
  ∃ d ∈ fbt_dirs, ∃ k ∈ Finset.Icc 1 r, c = ray_cell pos d k ∧
    ∀ j ∈ Finset.Ico 1 k, ray_cell pos d j ∉ obstacles

instance (obstacles : Finset Cell) (pos : Cell) (r : ℕ) :
    DecidablePred (destroyed_spec_pred obstacles pos r) := fun c => by
  unfold destroyed_spec_pred; infer_instance

/-- The destroyed set of the spec as a set: see `destroyed_spec_pred`. -/
def destroyed_spec (obstacles : Finset Cell) (pos : Cell) (r : ℕ) : Finset Cell :=
  obstacles.filter (destroyed_spec_pred obstacles pos r)

/-- Invariant of the queue entries of the `find_path` BFS: the carried path
is a well-formed start-to-`e.1` path whose cells are all marked visited. -/
def good_entry (start : Cell) (blocked : Finset Cell) (mapSize : ℕ × ℕ)
    (maxLen : ℕ) (visited : Finset Cell) (e : Cell × List Cell) : Prop :=
  e.2 ≠ [] ∧ e.2.head? = some start ∧ e.2.getLast? = some e.1 ∧
  List.Chain' (fun a b => manhattan_distance a b = 1) e.2 ∧ e.2.Nodup ∧
  e.2.length ≤ maxLen ∧ (∀ c ∈ e.2.tail, bfs_passable blocked mapSize c) ∧
  (∀ c ∈ e.2, c ∈ visited)

/-! ## Concrete instances used by witnesses and counterexamples -/

/-- A live, movable bomber at the origin (witness for C1). -/
def bomberC1 : Bomber := ⟨"u1", (0, 0), true, true, 0, false, false, 2⟩

/-- A 2 by 2 empty arena holding only `bomberC1` (witness for C1). -/
def arenaC1 : ArenaData := ⟨(2, 2), [], [], [], [], [], [bomberC1]⟩

/-- C6 arena: one obstacle at (0, 2) with a wall at (0, 1) in front of it. -/
def arenaC6 : ArenaLists := ⟨[(0, 2)], [(0, 1)], []⟩

/-- C9 counterexample: a live bomber standing on an imminent bomb. -/
def bomberC9 : Bomber := ⟨"u1", (1, 1), true, true, 1, false, false, 2⟩

/-- C9 counterexample arena: 3 by 3 map, a bomb with timer 1 under the unit. -/
def arenaC9 : ArenaData := ⟨(3, 3), [], [], [⟨(1, 1), 1, 1⟩], [], [], [bomberC9]⟩

/-- C9 witness: a bomber beside an imminent bomb, with a free retreat cell. -/
def bomberC9w : Bomber := ⟨"u2", (0, 0), true, true, 1, false, false, 2⟩

/-- C9 witness arena: 2 by 2 map, bomb with timer 1 at (0, 1). -/
def arenaC9w : ArenaData := ⟨(2, 2), [], [], [⟨(0, 1), 1, 1⟩], [], [], [bomberC9w]⟩

/-- C5 witness data: two bombs and a patrol mob. -/
def bombC5a : Bomb := ⟨⟨1, 1⟩, 1, 1, "p1"⟩

/-- Second bomb of the C5 witness. -/
def bombC5b : Bomb := ⟨⟨4, 2⟩, 3, 2, "p2"⟩

/-- Patrol mob of the C5 witness. -/
def mobC5 : Mob := ⟨"m1", "patrol", ⟨0, 3⟩, 0⟩

/-- C5 witness state, bombs in one order. -/
def stC5a : GameState := ⟨"pl", "r", (6, 6), 0, [], [], [], [bombC5a, bombC5b], [mobC5], []⟩

/-- C5 witness state, bombs swapped. -/
def stC5b : GameState := ⟨"pl", "r", (6, 6), 0, [], [], [], [bombC5b, bombC5a], [mobC5], []⟩

/-- C10 witness: a bomber that cannot pass obstacles. -/
def bomberC10 : Bomber := ⟨"w", (0, 0), true, true, 1, false, false, 2⟩

/-- C7 data: a live bomber near the first target. -/
def bomberC7a : Bomber := ⟨"u1", (0, 0), true, true, 1, false, false, 2⟩

/-- C7 data: a live bomber near the second target. -/
def bomberC7b : Bomber := ⟨"u2", (5, 5), true, true, 1, false, false, 2⟩

/-- C7 witness candidate targets. -/
def targetsC7 : List TargetRec := [⟨(0, 1), 1, ∅⟩, ⟨(5, 6), 1, ∅⟩]

/-- C4 counterexample state: one bomb with timer 10 (above the threshold) and
radius 2 at (2, 2), and a wall at (3, 2) directly on its blast arm. -/
def stC4 : GameState :=
  ⟨"pl", "r", (6, 6), 0, [], [], [⟨3, 2⟩], [⟨⟨2, 2⟩, 10, 2, "o"⟩], [], []⟩

/-! ## Theorems -/

theorem reconstruct_path_none_fun (fuel : ℕ) (c : Cell) :
    reconstruct_path (fun _ => none) fuel c = [] := by
  cases fuel <;> simp [reconstruct_path]

theorem a_star_none_of_not_mem {start goal : Cell} {passable : Finset Cell} {n : ℕ}
    (h : start ∉ passable ∨ goal ∉ passable) : a_star start goal passable n = none := by
  unfold a_star
  exact if_pos h

theorem a_star_self {start : Cell} {passable : Finset Cell} (n : ℕ)
    (h : start ∈ passable) : a_star start start passable n = some [] := by
  unfold a_star
  rw [if_neg (by simp [h])]
  rw [show passable.card * n + 2 = (passable.card * n + 1) + 1 by omega]
  simp [a_star_loop, pop_min, find_min, reconstruct_path_none_fun]

theorem attack_phase_eq_none (bomber : Bomber) (obstacles : Finset Cell)
    (enemies : List Cell) (dangerousCells passableCells : Finset Cell) :
    attack_phase bomber obstacles enemies dangerousCells passableCells = none := by
  simp only [attack_phase]
  split
  · rfl
  · split
    · split
      · rfl
      · split
        · rfl
        · split
          · rfl
          · split
            · split
              · rfl
              · rw [a_star_none_of_not_mem (Or.inl (Finset.not_mem_erase _ _))]
            · rfl
    · rfl

theorem retreat_phase_some {bomber : Bomber} {d p : Finset Cell} {c : Command}
    (h : retreat_phase bomber d p = some c) :
    c.id = bomber.id ∧ c.bombs = [] ∧ c.path ≠ [] := by
  simp only [retreat_phase] at h
  split at h
  · split at h
    · split at h
      · simp at h
      · split at h
        · simp at h
        · split at h
          · simp at h
          · rename_i hne
            cases h
            exact ⟨rfl, rfl, hne⟩
    · simp at h
  · simp at h

theorem reposition_phase_some {bomber : Bomber} {o d p : Finset Cell} {c : Command}
    (h : reposition_phase bomber o d p = some c) :
    c.id = bomber.id ∧ c.bombs = [] ∧ c.path ≠ [] := by
  simp only [reposition_phase] at h
  split at h
  · split at h
    · simp at h
    · split at h
      · simp at h
      · rename_i hne
        cases h
        refine ⟨rfl, rfl, ?_⟩
        simp [List.take_eq_nil_iff, hne]
  · simp at h

theorem plan_bomber_action_spec (bomber : Bomber) (arena : ArenaData) :
    (plan_bomber_action bomber arena).id = bomber.id ∧
    (plan_bomber_action bomber arena).bombs = [] ∧
    (plan_bomber_action bomber arena).path ≠ [] := by
  simp only [plan_bomber_action, attack_phase_eq_none]
  cases hr : retreat_phase bomber (plan_dangerous_cells arena)
      (plan_passable_cells bomber arena) with
  | some c =>
    obtain ⟨h1, h2, h3⟩ := retreat_phase_some hr
    simp [Option.orElse, h1, h2, h3]
  | none =>
    cases hp : reposition_phase bomber arena.obstacles.toFinset
        (plan_dangerous_cells arena) (plan_passable_cells bomber arena) with
    | some c =>
      obtain ⟨h1, h2, h3⟩ := reposition_phase_some hp
      simp [Option.orElse, h1, h2, h3]
    | none => simp [Option.orElse, idle_command]

/-- C1: for every per-tick input and every unit marked alive and movable, the
command synthesizer as invoked by `generate_commands` emits a command for that
unit, and its path is never empty (`plan_bomber_action` falls back to the
single-cell path at the current position). -/
theorem claim_C1_nonempty_command (arena : ArenaData) (b : Bomber)
    (hmem : b ∈ arena.bombers) (halive : b.alive = true) (hmove : b.canMove = true) :
    ∃ cmd ∈ (generate_commands arena).bombers, cmd.id = b.id ∧ cmd.path ≠ [] := by
  refine ⟨plan_bomber_action b arena, ?_,
    (plan_bomber_action_spec b arena).1, (plan_bomber_action_spec b arena).2.2⟩
  simp only [generate_commands]
  exact List.mem_map_of_mem _ (List.mem_filter.mpr ⟨hmem, by simp [halive, hmove]⟩)

/-- Witness for C1 at a concrete arena. -/
theorem claim_C1_nonempty_command_witness :
    ∃ cmd ∈ (generate_commands arenaC1).bombers, cmd.id = bomberC1.id ∧ cmd.path ≠ [] :=
  claim_C1_nonempty_command arenaC1 bomberC1 (by decide) (by decide) (by decide)

theorem bfs_loop_length_le (goal : Cell) (blocked : Finset Cell) (mapSize : ℕ × ℕ)
    (maxLen : ℕ) :
    ∀ (fuel : ℕ) (queue : List (Cell × List Cell)) (visited : Finset Cell),
      (bfs_loop goal blocked mapSize maxLen fuel queue visited).length ≤ maxLen := by
  intro fuel
  induction fuel with
  | zero => intro queue visited; simp [bfs_loop]
  | succ n ih =>
    intro queue visited
    cases queue with
    | nil => simp [bfs_loop]
    | cons e rest =>
      obtain ⟨cur, path⟩ := e
      simp only [bfs_loop]
      split
      · exact le_trans (le_of_eq (List.length_take maxLen path)) (Nat.min_le_left _ _)
      · split
        · exact ih rest visited
        · exact ih _ _

theorem find_path_length_le (start goal : Cell) (blocked : Finset Cell)
    (mapSize : ℕ × ℕ) (maxLen : ℕ) (h1 : 1 ≤ maxLen) :
    (find_path start goal blocked mapSize maxLen).length ≤ maxLen := by
  unfold find_path
  split
  · simpa using h1
  · exact bfs_loop_length_le goal blocked mapSize maxLen _ _ _

theorem bombs_on_path_aux (pos target : Cell) (blocked : Finset Cell) (ms : ℕ × ℕ) :
    ((if target ∈ (if find_path pos target blocked ms 30 = [] then [pos]
        else find_path pos target blocked ms 30) then [target] else []).all fun c =>
      decide (c ∈ (if find_path pos target blocked ms 30 = [] then [pos]
        else find_path pos target blocked ms 30).take 30) || decide (c = pos)) = true := by
  have hlen : (if find_path pos target blocked ms 30 = [] then [pos]
      else find_path pos target blocked ms 30).length ≤ 30 := by
    split
    · simp
    · exact find_path_length_le _ _ _ _ _ (by norm_num)
  rw [List.take_of_length_le hlen]
  split <;> simp
  tauto

/-- C8: every cell in a command's bombs list lies on the (30-capped) path or
is the unit's current cell — for both command synthesizers.  In
`plan_bomber_action` the bombs list is always empty (the attack stage cannot
complete: its escape pathfind starts at the bomb cell, which is removed from
the passable set it searches, so it always rejects); in `generate_command`
the target is emitted exactly when it lies on the path, whose length is at
most 30 so the cap keeps it. -/
theorem claim_C8_bombs_on_path :
    (∀ (bomber : Bomber) (arena : ArenaData),
      ((plan_bomber_action bomber arena).bombs.all fun c =>
        decide (c ∈ (plan_bomber_action bomber arena).path) || decide (c = bomber.pos)) = true) ∧
    (∀ (bomber : Bomber) (task : BomberTask) (arena : ArenaLists) (mapSize : ℕ × ℕ) (dt : ℚ),
      ((generate_command bomber task arena mapSize dt).bombs.all fun c =>
        decide (c ∈ (generate_command bomber task arena mapSize dt).path) ||
          decide (c = bomber.pos)) = true) := by
  constructor
  · intro bomber arena
    simp [(plan_bomber_action_spec bomber arena).2.1]
  · intro bomber task arena mapSize dt
    cases htype : task.type
    case explore => simp [generate_command, htype]
    case bomb =>
      simp only [generate_command, htype]
      exact bombs_on_path_aux bomber.pos task.target _ mapSize

theorem get_passable_cells_sub {bomber : Bomber} {mapSize : ℕ × ℕ}
    {obstacles walls : Finset Cell} {bombs : List BombData} {c : Cell}
    (h : c ∈ get_passable_cells bomber mapSize obstacles walls bombs) :
    is_within_bounds c mapSize ∧ c ∉ walls ∧
      (c ∈ obstacles → bomber.canPassObstacles = true) ∧
      ((∃ b ∈ bombs, b.pos = c) → bomber.canPassBombs = true) := by
  unfold get_passable_cells at h
  rw [List.mem_toFinset, List.mem_flatMap] at h
  obtain ⟨x, hx, hy⟩ := h
  rw [List.mem_filterMap] at hy
  obtain ⟨y, hy, hf⟩ := hy
  rw [List.mem_range] at hx hy
  simp only at hf
  split at hf
  · simp at hf
  · split at hf
    · simp at hf
    · split at hf
      · simp at hf
      · rename_i hw hobs hbomb
        rw [Option.some_inj] at hf
        subst hf
        refine ⟨by simp only [is_within_bounds]; omega, hw, ?_, ?_⟩
        · intro hco
          cases hb : bomber.canPassObstacles with
          | false => exact absurd ⟨hco, hb⟩ hobs
          | true => rfl
        · rintro ⟨b, hbmem, hbpos⟩
          cases hb : bomber.canPassBombs with
          | false =>
            exact absurd ⟨List.any_eq_true.mpr ⟨b, hbmem, decide_eq_true hbpos⟩, hb⟩ hbomb
          | true => rfl

theorem plan_bomber_action_idle_of_not_passable (bomber : Bomber) (arena : ArenaData)
    (h : bomber.pos ∉ plan_passable_cells bomber arena) :
    plan_bomber_action bomber arena = idle_command bomber := by
  have hr : retreat_phase bomber (plan_dangerous_cells arena)
      (plan_passable_cells bomber arena) = none := by
    simp only [retreat_phase]
    split
    · split
      · split
        · rfl
        · rw [a_star_none_of_not_mem (Or.inl h)]
      · rfl
    · rfl
  have hp : reposition_phase bomber arena.obstacles.toFinset (plan_dangerous_cells arena)
      (plan_passable_cells bomber arena) = none := by
    simp only [reposition_phase]
    split
    · have hns : bomber.pos ∉ plan_passable_cells bomber arena \ plan_dangerous_cells arena :=
        fun hx => h (Finset.mem_sdiff.mp hx).1
      rw [a_star_none_of_not_mem (Or.inl hns)]
    · rfl
  simp only [plan_bomber_action, attack_phase_eq_none, hr, hp]
  rfl

theorem plan_idle_of_bomb_underfoot (bomber : Bomber) (arena : ArenaData)
    (hb : ∃ b ∈ arena.bombs, b.pos = bomber.pos) (hcp : bomber.canPassBombs = false) :
    plan_bomber_action bomber arena = idle_command bomber := by
  apply plan_bomber_action_idle_of_not_passable
  intro hmem
  simp only [plan_passable_cells] at hmem
  have := (get_passable_cells_sub hmem).2.2.2 hb
  rw [hcp] at this
  cases this

theorem argmin_by_mem {f : Cell → ℕ} :
    ∀ {l : List Cell} {m : Cell}, argmin_by f l = some m → m ∈ l := by
  intro l
  induction l with
  | nil => intro m h; simp [argmin_by] at h
  | cons x xs ih =>
    intro m h
    simp only [argmin_by] at h
    cases hxs : argmin_by f xs with
    | none =>
      rw [hxs] at h
      rw [Option.some_inj] at h
      exact h ▸ List.mem_cons_self x xs
    | some m2 =>
      rw [hxs] at h
      rw [Option.some_inj] at h
      split at h
      · exact h ▸ List.mem_cons_self x xs
      · exact h ▸ List.mem_cons_of_mem x (ih hxs)

theorem mem_cell_list {s : Finset Cell} {c : Cell} : c ∈ cell_list s ↔ c ∈ s := by
  rcases s with ⟨val, nd⟩
  induction val using Quotient.inductionOn with
  | h l =>
    simp only [cell_list, Quotient.liftOn_mk, Finset.mem_mk, Multiset.mem_coe]
    exact (List.perm_insertionSort cell_le l).mem_iff

theorem retreat_phase_success (bomber : Bomber) (d p : Finset Cell)
    (hd : bomber.pos ∈ d) (nearestSafe : Cell)
    (hmin : argmin_by (manhattan_distance bomber.pos) (cell_list (p \ d)) = some nearestSafe)
    (path : List Cell) (hp : a_star bomber.pos nearestSafe p 10 = some path)
    (hnn : path ≠ []) :
    retreat_phase bomber d p = some ⟨bomber.id, path, []⟩ := by
  have hne : (p \ d).Nonempty :=
    ⟨nearestSafe, mem_cell_list.mp (argmin_by_mem hmin)⟩
  simp only [retreat_phase, if_pos hd, if_pos hne, hmin, hp]
  rw [if_neg hnn]

/-- C9 (amended): when a unit's cell is dangerous the synthesizer attempts the
retreat stage: if the retreat pathfind succeeds with a nonempty path the
emitted command is exactly that path with no bombs; but a unit standing on a
bomb it cannot pass has an impassable current cell, every pathfind stage
rejects, and the unit idles in place on its dangerous cell (so the final
cell's danger is not lower than the start's). -/
theorem claim_C9_retreat_amended :
    (∀ (bomber : Bomber) (arena : ArenaData),
      bomber.pos ∈ plan_dangerous_cells arena →
      ∀ nearestSafe path,
        argmin_by (manhattan_distance bomber.pos)
          (cell_list (plan_passable_cells bomber arena \ plan_dangerous_cells arena)) =
          some nearestSafe →
        a_star bomber.pos nearestSafe (plan_passable_cells bomber arena) 10 = some path →
        path ≠ [] →
        plan_bomber_action bomber arena = ⟨bomber.id, path, []⟩) ∧
    (∀ (bomber : Bomber) (arena : ArenaData),
      (∃ b ∈ arena.bombs, b.pos = bomber.pos) → bomber.canPassBombs = false →
      plan_bomber_action bomber arena = ⟨bomber.id, [bomber.pos], []⟩) := by
  constructor
  · intro bomber arena hd nearestSafe path hmin hp hnn
    have hr := retreat_phase_success bomber (plan_dangerous_cells arena)
      (plan_passable_cells bomber arena) hd nearestSafe hmin path hp hnn
    simp only [plan_bomber_action, hr, Option.orElse]
    rfl
  · intro bomber arena hb hcp
    exact plan_idle_of_bomb_underfoot bomber arena hb hcp

/-- Witness for C9 (amended), instantiating both branches. -/
theorem claim_C9_retreat_amended_witness :
    plan_bomber_action bomberC9w arenaC9w = ⟨"u2", [(1, 0)], []⟩ ∧
    plan_bomber_action bomberC9 arenaC9 = ⟨"u1", [(1, 1)], []⟩ :=
  ⟨claim_C9_retreat_amended.1 bomberC9w arenaC9w (by decide) (1, 0) [(1, 0)]
      (by decide) (by decide) (by decide),
    claim_C9_retreat_amended.2 bomberC9 arenaC9 ⟨⟨(1, 1), 1, 1⟩, by decide, rfl⟩ rfl⟩

/-- Counterexample to C9 as stated: the unit of `arenaC9` stands at distance 0
from an imminent bomb (timer 1 below the threshold 2), its cell is in the
dangerous set, yet the synthesizer returns the idle command whose path ends
at the very cell it started on — the last cell's danger is not strictly lower
than the start's. -/
theorem claim_C9_counterexample :
    bomberC9.pos ∈ plan_dangerous_cells arenaC9 ∧
    plan_bomber_action bomberC9 arenaC9 = ⟨"u1", [(1, 1)], []⟩ ∧
    (plan_bomber_action bomberC9 arenaC9).path.getLast? = some bomberC9.pos := by
  refine ⟨by decide, ?_, ?_⟩
  · exact plan_idle_of_bomb_underfoot bomberC9 arenaC9 ⟨⟨(1, 1), 1, 1⟩, by decide, rfl⟩ rfl
  · rw [plan_idle_of_bomb_underfoot bomberC9 arenaC9 ⟨⟨(1, 1), 1, 1⟩, by decide, rfl⟩ rfl]
    rfl

theorem mem_get_neighbors_dist {cur n : Cell} (h : n ∈ get_neighbors cur) :
    manhattan_distance cur n = 1 := by
  simp only [get_neighbors, List.mem_cons, List.mem_singleton, List.not_mem_nil, or_false] at h
  rcases h with h | h | h | h <;> subst h <;> simp [manhattan_distance]

theorem good_entry_mono {start : Cell} {blocked : Finset Cell} {ms : ℕ × ℕ}
    {maxLen : ℕ} {v v' : Finset Cell} {e : Cell × List Cell}
    (hsub : v ⊆ v') (h : good_entry start blocked ms maxLen v e) :
    good_entry start blocked ms maxLen v' e :=
  ⟨h.1, h.2.1, h.2.2.1, h.2.2.2.1, h.2.2.2.2.1, h.2.2.2.2.2.1, h.2.2.2.2.2.2.1,
    fun c hc => hsub (h.2.2.2.2.2.2.2 c hc)⟩

theorem bfs_expand_inv (start cur : Cell) (blocked : Finset Cell) (ms : ℕ × ℕ)
    (maxLen : ℕ) (path : List Cell)
    (hne : path ≠ []) (hhead : path.head? = some start) (hlast : path.getLast? = some cur)
    (hchain : List.Chain' (fun a b => manhattan_distance a b = 1) path)
    (hnodup : path.Nodup) (hlen : path.length < maxLen)
    (htail : ∀ c ∈ path.tail, bfs_passable blocked ms c) :
    ∀ (nbs : List Cell), (∀ n ∈ nbs, manhattan_distance cur n = 1) →
    ∀ (queue : List (Cell × List Cell)) (visited : Finset Cell),
      (∀ e ∈ queue, good_entry start blocked ms maxLen visited e) →
      (∀ c ∈ path, c ∈ visited) →
      ∀ e ∈ (nbs.foldl (fun qv nxt =>
          if is_within_bounds nxt ms ∧ nxt ∉ qv.2 ∧ nxt ∉ blocked then
            (qv.1 ++ [(nxt, path ++ [nxt])], insert nxt qv.2)
          else qv) (queue, visited)).1,
        good_entry start blocked ms maxLen
          (nbs.foldl (fun qv nxt =>
            if is_within_bounds nxt ms ∧ nxt ∉ qv.2 ∧ nxt ∉ blocked then
              (qv.1 ++ [(nxt, path ++ [nxt])], insert nxt qv.2)
            else qv) (queue, visited)).2 e := by
  intro nbs
  induction nbs with
  | nil =>
    intro _ q v hq _ e he
    exact hq e he
  | cons n rest ih =>
    intro hdist q v hq hsub
    simp only [List.foldl_cons]
    by_cases hc : is_within_bounds n ms ∧ n ∉ v ∧ n ∉ blocked
    · rw [if_pos hc]
      apply ih (fun m hm => hdist m (List.mem_cons_of_mem _ hm))
      · intro e he
        rcases List.mem_append.mp he with he | he
        · exact good_entry_mono (Finset.subset_insert _ _) (hq e he)
        · rw [List.mem_singleton] at he
          subst he
          have hnp : n ∉ path := fun hx => hc.2.1 (hsub n hx)
          refine ⟨by simp, ?_, ?_, ?_, ?_, ?_, ?_, ?_⟩
          · cases path with
            | nil => exact absurd rfl hne
            | cons a t => simpa using hhead
          · exact List.getLast?_concat _
          · refine List.Chain'.append hchain (List.chain'_singleton n) ?_
            intro x hx y hy
            rw [hlast, Option.mem_def, Option.some_inj] at hx
            simp only [List.head?_cons, Option.mem_def, Option.some_inj] at hy
            subst hx; subst hy
            exact hdist n (List.mem_cons_self _ _)
          · simp [List.nodup_append, hnodup, hnp]
          · simp; omega
          · intro c hcm
            cases path with
            | nil => exact absurd rfl hne
            | cons a t =>
              simp only [List.cons_append, List.tail_cons] at hcm
              rcases List.mem_append.mp hcm with hcm | hcm
              · exact htail c hcm
              · rw [List.mem_singleton] at hcm
                subst hcm
                exact ⟨hc.1, hc.2.2⟩
          · intro c hcm
            rcases List.mem_append.mp hcm with hcm | hcm
            · exact Finset.mem_insert_of_mem (hsub c hcm)
            · rw [List.mem_singleton] at hcm
              subst hcm
              exact Finset.mem_insert_self _ _
      · exact fun c hc2 => Finset.mem_insert_of_mem (hsub c hc2)
    · rw [if_neg hc]
      exact ih (fun m hm => hdist m (List.mem_cons_of_mem _ hm)) q v hq hsub

theorem bfs_loop_sound (start goal : Cell) (blocked : Finset Cell) (ms : ℕ × ℕ)
    (maxLen : ℕ) :
    ∀ (fuel : ℕ) (queue : List (Cell × List Cell)) (visited : Finset Cell),
      (∀ e ∈ queue, good_entry start blocked ms maxLen visited e) →
      bfs_loop goal blocked ms maxLen fuel queue visited = [] ∨
        bfs_result_ok start goal blocked ms maxLen
          (bfs_loop goal blocked ms maxLen fuel queue visited) := by
  intro fuel
  induction fuel with
  | zero => intro q v _; left; simp [bfs_loop]
  | succ f ih =>
    intro q v hq
    cases q with
    | nil => left; simp [bfs_loop]
    | cons e rest =>
      obtain ⟨cur, path⟩ := e
      obtain ⟨h1, h2, h3, h4, h5, h6, h7, h8⟩ := hq (cur, path) (List.mem_cons_self _ _)
      simp only [bfs_loop]
      split
      · rename_i hgoal
        right
        rw [List.take_of_length_le h6]
        subst hgoal
        exact ⟨h2, h3, h4, h5, h6, h7⟩
      · split
        · exact ih rest v fun e he => hq e (List.mem_cons_of_mem _ he)
        · rename_i hgoal hlen
          exact ih _ _ (bfs_expand_inv start cur blocked ms maxLen path h1 h2 h3 h4 h5
            (by omega) h7 (get_neighbors cur) (fun n hn => mem_get_neighbors_dist hn)
            rest v (fun e he => hq e (List.mem_cons_of_mem _ he)) h8)

theorem find_path_sound (start goal : Cell) (blocked : Finset Cell) (ms : ℕ × ℕ)
    (maxLen : ℕ) (hm : 1 ≤ maxLen) :
    find_path start goal blocked ms maxLen = [] ∨
      bfs_result_ok start goal blocked ms maxLen (find_path start goal blocked ms maxLen) := by
  unfold find_path
  split
  · rename_i heq
    subst heq
    right
    exact ⟨rfl, rfl, List.chain'_singleton _, List.nodup_singleton _, by simpa using hm,
      by simp⟩
  · apply bfs_loop_sound
    intro e he
    rw [List.mem_singleton] at he
    subst he
    exact ⟨by simp, rfl, rfl, List.chain'_singleton _, List.nodup_singleton _,
      by simpa using hm, by simp, by simp⟩

/-- C2 (amended): every path the BFS pathfinder `find_path` returns between a
start and goal both passable, within `max_len ≥ 1`, has 4-adjacent consecutive
cells, no repeated cell, only passable cells, length at most `max_len`, starts
at `start` and ends at `goal`; and when `start = goal` the result is exactly
`[start]`.  The A* pathfinder of api.py, by contrast, returns paths that
exclude the start cell: on `start = goal` it returns the empty path, not
`[start]`. -/
theorem claim_C2_pathfinder_amended :
    (∀ (start goal : Cell) (blocked : Finset Cell) (ms : ℕ × ℕ) (maxLen : ℕ),
      1 ≤ maxLen → bfs_passable blocked ms start → bfs_passable blocked ms goal →
      (start = goal → find_path start goal blocked ms maxLen = [start]) ∧
      (find_path start goal blocked ms maxLen ≠ [] →
        bfs_result_ok start goal blocked ms maxLen (find_path start goal blocked ms maxLen) ∧
        ∀ c ∈ find_path start goal blocked ms maxLen, bfs_passable blocked ms c)) ∧
    (∀ (start : Cell) (passable : Finset Cell) (n : ℕ), start ∈ passable →
      a_star start start passable n = some []) := by
  constructor
  · intro start goal blocked ms maxLen hm hst _
    constructor
    · intro heq
      simp [find_path, heq]
    · intro hne
      rcases find_path_sound start goal blocked ms maxLen hm with h | h
      · exact absurd h hne
      · refine ⟨h, ?_⟩
        intro c hc
        rcases h with ⟨hhead, _, _, _, _, htail⟩
        cases hfp : find_path start goal blocked ms maxLen with
        | nil => exact absurd hfp hne
        | cons a t =>
          rw [hfp] at hhead hc
          rw [List.head?_cons, Option.some_inj] at hhead
          subst hhead
          rcases List.mem_cons.mp hc with rfl | hc
          · exact hst
          · rw [hfp] at htail
            exact htail c hc
  · intro start passable n h
    exact a_star_self n h

/-- Witness for C2 (amended) on a concrete map. -/
theorem claim_C2_pathfinder_amended_witness :
    (((0, 0) : Cell) = ((1, 0) : Cell) →
      find_path (0, 0) (1, 0) ∅ (2, 1) 30 = [(0, 0)]) ∧
    (find_path (0, 0) (1, 0) ∅ (2, 1) 30 ≠ [] →
      bfs_result_ok (0, 0) (1, 0) ∅ (2, 1) 30 (find_path (0, 0) (1, 0) ∅ (2, 1) 30) ∧
      ∀ c ∈ find_path (0, 0) (1, 0) ∅ (2, 1) 30, bfs_passable ∅ (2, 1) c) ∧
    a_star (5, 5) (5, 5) ({((5 : ℤ), (5 : ℤ))} : Finset Cell) 12 = some [] :=
  ⟨(claim_C2_pathfinder_amended.1 (0, 0) (1, 0) ∅ (2, 1) 30 (by decide)
      (by decide) (by decide)).1,
    (claim_C2_pathfinder_amended.1 (0, 0) (1, 0) ∅ (2, 1) 30 (by decide)
      (by decide) (by decide)).2,
    claim_C2_pathfinder_amended.2 (5, 5) _ 12 (by decide)⟩

/-- Counterexample to C2 as stated: with start = goal = (0,0), both in the
passable set, the A* pathfinder returns the empty path rather than
`[start]`. -/
theorem claim_C2_counterexample :
    a_star (0, 0) (0, 0) ({((0 : ℤ), (0 : ℤ))} : Finset Cell) 30 = some [] ∧
    some ([] : List Cell) ≠ some [((0 : ℤ), (0 : ℤ))] :=
  ⟨a_star_self 30 (by decide), by decide⟩

/-- C3 (amended): `a_star` rejects immediately (returns the not-found value)
when start or goal is not passable; `find_path` is total (never raises) and
returns either the not-found value `[]` or a well-formed start-to-goal path —
hence `[]` whenever no such path within `max_len` exists.  `find_path` does
not, however, reject a blocked start cell (see the counterexample). -/
theorem claim_C3_pathfinder_reject_amended :
    (∀ (start goal : Cell) (passable : Finset Cell) (n : ℕ),
      start ∉ passable ∨ goal ∉ passable → a_star start goal passable n = none) ∧
    (∀ (start goal : Cell) (blocked : Finset Cell) (ms : ℕ × ℕ) (maxLen : ℕ),
      1 ≤ maxLen →
      find_path start goal blocked ms maxLen = [] ∨
        bfs_result_ok start goal blocked ms maxLen (find_path start goal blocked ms maxLen)) :=
  ⟨fun _ _ _ _ h => a_star_none_of_not_mem h,
    fun start goal blocked ms maxLen hm => find_path_sound start goal blocked ms maxLen hm⟩

/-- Witness for C3 (amended). -/
theorem claim_C3_pathfinder_reject_amended_witness :
    a_star (0, 0) (1, 1) (∅ : Finset Cell) 30 = none ∧
    (find_path (0, 0) (3, 0) ({((1 : ℤ), (0 : ℤ))} : Finset Cell) (4, 1) 30 = [] ∨
      bfs_result_ok (0, 0) (3, 0) {((1 : ℤ), (0 : ℤ))} (4, 1) 30
        (find_path (0, 0) (3, 0) {((1 : ℤ), (0 : ℤ))} (4, 1) 30)) :=
  ⟨claim_C3_pathfinder_reject_amended.1 (0, 0) (1, 1) ∅ 30 (Or.inl (by decide)),
    claim_C3_pathfinder_reject_amended.2 (0, 0) (3, 0) {((1 : ℤ), (0 : ℤ))} (4, 1) 30
      (by decide)⟩

/-- Counterexample to C3 as stated: `find_path` does not reject a start
outside the passable set — with the start cell itself blocked it still
returns a path beginning at that blocked cell instead of the not-found
value. -/
theorem claim_C3_counterexample :
    find_path (0, 0) (1, 0) ({((0 : ℤ), (0 : ℤ))} : Finset Cell) (2, 1) 30 =
      [(0, 0), (1, 0)] ∧
    (((0 : ℤ), (0 : ℤ)) : Cell) ∈ ({((0 : ℤ), (0 : ℤ))} : Finset Cell) ∧
    [((0 : ℤ), (0 : ℤ)), ((1 : ℤ), (0 : ℤ))] ≠ ([] : List Cell) := by
  refine ⟨by decide, by decide, by decide⟩

theorem apply_marks_apply (l : List (ℤ × ℤ × ℝ)) (m : DMap) (p : ℤ × ℤ) :
    apply_marks l m p =
      l.foldl (fun a e => if p = (e.1, e.2.1) then max a e.2.2 else a) (m p) := by
  induction l generalizing m with
  | nil => rfl
  | cons e t ih =>
    simp only [apply_marks, List.foldl_cons] at *
    rw [ih (set_danger e.1 e.2.1 e.2.2 m)]
    rfl

theorem apply_marks_append (l1 l2 : List (ℤ × ℤ × ℝ)) (m : DMap) :
    apply_marks (l1 ++ l2) m = apply_marks l2 (apply_marks l1 m) := by
  simp [apply_marks, List.foldl_append]

theorem foldl_marks_flatMap {α : Type} (f : α → List (ℤ × ℤ × ℝ)) (l : List α) (m : DMap) :
    l.foldl (fun acc x => apply_marks (f x) acc) m = apply_marks (l.flatMap f) m := by
  induction l generalizing m with
  | nil => simp [apply_marks]
  | cons x t ih => simp [List.flatMap_cons, apply_marks_append, ih]

theorem enemies_fold_id (l : List Unit) (m : DMap) :
    l.foldl (fun acc e => mark_enemy_danger e acc) m = m := by
  induction l generalizing m with
  | nil => rfl
  | cons x t ih => rw [List.foldl_cons, mark_enemy_danger]; exact ih m

theorem valstep_right_comm (p : ℤ × ℤ) (a : ℝ) (e1 e2 : ℤ × ℤ × ℝ) :
    (if p = (e2.1, e2.2.1) then
      max (if p = (e1.1, e1.2.1) then max a e1.2.2 else a) e2.2.2
     else if p = (e1.1, e1.2.1) then max a e1.2.2 else a) =
    (if p = (e1.1, e1.2.1) then
      max (if p = (e2.1, e2.2.1) then max a e2.2.2 else a) e1.2.2
     else if p = (e2.1, e2.2.1) then max a e2.2.2 else a) := by
  by_cases h1 : p = (e1.1, e1.2.1) <;> by_cases h2 : p = (e2.1, e2.2.1)
  · simp only [if_pos h1, if_pos h2]
    rw [max_assoc, max_comm e1.2.2 e2.2.2, ← max_assoc]
  · simp only [if_pos h1, if_neg h2]
  · simp only [if_neg h1, if_pos h2]
  · simp only [if_neg h1, if_neg h2]

theorem analyze_threats_apply (st : GameState) (p : ℤ × ℤ) :
    analyze_threats st p =
      (st.bombs.flatMap bomb_marks ++ st.mobs.flatMap mob_marks).foldl
        (fun a e => if p = (e.1, e.2.1) then max a e.2.2 else a) 0 := by
  unfold analyze_threats mark_bomb_danger mark_mob_danger
  rw [enemies_fold_id, foldl_marks_flatMap bomb_marks, foldl_marks_flatMap mob_marks,
    ← apply_marks_append, apply_marks_apply]

/-- C5: the danger map combines per cell by maximum, so threat analysis is
order-independent: permuting the bomb list and the mob list leaves the danger
map unchanged. -/
theorem claim_C5_order_independent (st st' : GameState)
    (hb : st.bombs.Perm st'.bombs) (hm : st.mobs.Perm st'.mobs) :
    analyze_threats st = analyze_threats st' := by
  funext p
  rw [analyze_threats_apply, analyze_threats_apply]
  exact @List.Perm.foldl_eq _ _ _ _ _ ⟨fun a e1 e2 => valstep_right_comm p a e1 e2⟩
    ((List.Perm.flatMap_right bomb_marks hb).append (List.Perm.flatMap_right mob_marks hm)) 0

/-- Witness for C5: swapping two concrete bombs leaves the analysis equal. -/
theorem claim_C5_order_independent_witness :
    analyze_threats stC5a = analyze_threats stC5b :=
  claim_C5_order_independent stC5a stC5b (List.Perm.swap bombC5b bombC5a [])
    (List.Perm.refl _)

theorem find_best_target_fold_inv {pos : Cell} {dang pass : Finset Cell} {t : Cell} :
    ∀ (l : List Cell) (acc : Option Cell × Option ℕ),
      ((l.foldl (fun best target =>
        let dist := manhattan_distance pos target
        if better_dist dist best.2 ∧ target ∈ pass ∧ target ∉ dang then
          (some target, some dist)
        else best) acc).1 = some t) →
      acc.1 = some t ∨ (t ∈ l ∧ t ∈ pass ∧ t ∉ dang) := by
  intro l
  induction l with
  | nil => intro acc h; exact Or.inl h
  | cons x xs ih =>
    intro acc h
    rw [List.foldl_cons] at h
    rcases ih _ h with h' | h'
    · by_cases hc : better_dist (manhattan_distance pos x) acc.2 ∧ x ∈ pass ∧ x ∉ dang
      · rw [if_pos hc] at h'
        rw [Option.some_inj] at h'
        exact Or.inr ⟨h' ▸ List.mem_cons_self x xs, h' ▸ hc.2.1, h' ▸ hc.2.2⟩
      · rw [if_neg hc] at h'
        exact Or.inl h'
    · exact Or.inr ⟨List.mem_cons_of_mem _ h'.1, h'.2⟩

theorem find_best_target_mem {pos : Cell} {targets : List Cell}
    {dang pass : Finset Cell} {t : Cell}
    (h : find_best_target pos targets dang pass = some t) :
    t ∈ targets ∧ t ∈ pass ∧ t ∉ dang := by
  unfold find_best_target at h
  rcases find_best_target_fold_inv targets (none, none) h with h' | h'
  · simp at h'
  · exact h'

/-- C10: a unit without the obstacle-passing capability has every obstacle
cell excluded from its passable set, and since `find_best_target` only
returns targets inside the passable set, such a unit is never handed an
obstacle cell as its attack target — with `targets = list(obstacles) +
enemies` as in `plan_bomber_action`, its target can only be an enemy
position. -/
theorem claim_C10_no_obstacle_target :
    (∀ (bomber : Bomber) (mapSize : ℕ × ℕ) (obstacles walls : Finset Cell)
       (bombs : List BombData) (c : Cell),
      bomber.canPassObstacles = false → c ∈ obstacles →
      c ∉ get_passable_cells bomber mapSize obstacles walls bombs) ∧
    (∀ (bomber : Bomber) (mapSize : ℕ × ℕ) (obstacles walls : Finset Cell)
       (bombs : List BombData) (pos : Cell) (enemies : List Cell)
       (dang : Finset Cell) (t : Cell),
      bomber.canPassObstacles = false →
      find_best_target pos (cell_list obstacles ++ enemies) dang
        (get_passable_cells bomber mapSize obstacles walls bombs) = some t →
      t ∉ obstacles ∧ t ∈ enemies) := by
  have hexcl : ∀ (bomber : Bomber) (mapSize : ℕ × ℕ) (obstacles walls : Finset Cell)
      (bombs : List BombData) (c : Cell),
      bomber.canPassObstacles = false → c ∈ obstacles →
      c ∉ get_passable_cells bomber mapSize obstacles walls bombs := by
    intro bomber mapSize obstacles walls bombs c hflag hobs hmem
    have := (get_passable_cells_sub hmem).2.2.1 hobs
    rw [hflag] at this
    cases this
  refine ⟨hexcl, ?_⟩
  intro bomber mapSize obstacles walls bombs pos enemies dang t hflag h
  obtain ⟨hmem, hpass, _⟩ := find_best_target_mem h
  have hnotobs : t ∉ obstacles := fun hobs =>
    hexcl bomber mapSize obstacles walls bombs t hflag hobs hpass
  refine ⟨hnotobs, ?_⟩
  rcases List.mem_append.mp hmem with hm | hm
  · exact absurd (mem_cell_list.mp hm) hnotobs
  · exact hm

/-- Witness for C10: the obstacle at (1,0) is not passable and never chosen;
the chosen target is the enemy at (0,1). -/
theorem claim_C10_no_obstacle_target_witness :
    ((1, 0) : Cell) ∉ get_passable_cells bomberC10 (2, 2)
      ({((1 : ℤ), (0 : ℤ))} : Finset Cell) ∅ [] ∧
    (((0, 1) : Cell) ∉ ({((1 : ℤ), (0 : ℤ))} : Finset Cell) ∧
      ((0, 1) : Cell) ∈ [((0 : ℤ), (1 : ℤ))]) :=
  ⟨claim_C10_no_obstacle_target.1 bomberC10 (2, 2) {((1 : ℤ), (0 : ℤ))} ∅ [] (1, 0)
      rfl (by decide),
    claim_C10_no_obstacle_target.2 bomberC10 (2, 2) {((1 : ℤ), (0 : ℤ))} ∅ [] (0, 0)
      [((0 : ℤ), (1 : ℤ))] ∅ (0, 1) rfl (by decide)⟩

theorem assign_bomb_loop_inv :
    ∀ (bombers : List Bomber) (tps : List Cell) (used : Finset Cell)
      (asg : String → Option BomberTask),
      (∀ bid t, asg bid = some t → t.type = TaskType.bomb ∧ t.target ∈ used) →
      (∀ b1 b2 t1 t2, b1 ≠ b2 → asg b1 = some t1 → asg b2 = some t2 →
        t1.target ≠ t2.target) →
      (∀ bid t, (assign_bomb_loop bombers tps used asg).2.2 bid = some t →
        t.type = TaskType.bomb ∧ t.target ∈ (assign_bomb_loop bombers tps used asg).2.1) ∧
      (∀ b1 b2 t1 t2, b1 ≠ b2 →
        (assign_bomb_loop bombers tps used asg).2.2 b1 = some t1 →
        (assign_bomb_loop bombers tps used asg).2.2 b2 = some t2 →
        t1.target ≠ t2.target) := by
  intro bombers
  induction bombers with
  | nil => intro tps used asg h1 h2; exact ⟨h1, h2⟩
  | cons b rest ih =>
    intro tps used asg h1 h2
    simp only [assign_bomb_loop]
    split
    · exact ⟨h1, h2⟩
    · cases hmin : argmin_by (manhattan_distance b.pos)
          (tps.filter fun t => decide (t ∉ used)) with
      | none => exact ih tps used asg h1 h2
      | some best =>
        have hbest : best ∉ used := by
          have := argmin_by_mem hmin
          rw [List.mem_filter] at this
          simpa using this.2
        apply ih
        · intro bid t ht
          unfold upd_assign at ht
          split at ht
          · rw [Option.some_inj] at ht
            subst ht
            exact ⟨rfl, Finset.mem_insert_self _ _⟩
          · obtain ⟨hty, hmem⟩ := h1 bid t ht
            exact ⟨hty, Finset.mem_insert_of_mem hmem⟩
        · intro b1 b2 t1 t2 hne ht1 ht2
          unfold upd_assign at ht1 ht2
          split at ht1
          · rename_i hb1
            split at ht2
            · rename_i hb2
              exact absurd (hb1.trans hb2.symm) hne
            · rw [Option.some_inj] at ht1
              subst ht1
              intro hcontra
              have hmem2 := (h1 b2 t2 ht2).2
              rw [← show best = t2.target from hcontra] at hmem2
              exact hbest hmem2
          · split at ht2
            · rw [Option.some_inj] at ht2
              subst ht2
              intro hcontra
              have hmem1 := (h1 b1 t1 ht1).2
              rw [show t1.target = best from hcontra] at hmem1
              exact hbest hmem1
            · exact h2 b1 b2 t1 t2 hne ht1 ht2

theorem assign_explore_loop_lookup (rand : ℕ → Cell) :
    ∀ (bombers : List Bomber) (k : ℕ) (asg : String → Option BomberTask)
      (bid : String) (t : BomberTask),
      assign_explore_loop rand bombers k asg bid = some t →
      asg bid = some t ∨ t.type = TaskType.explore := by
  intro bombers
  induction bombers with
  | nil => intro k asg bid t h; exact Or.inl h
  | cons b rest ih =>
    intro k asg bid t h
    simp only [assign_explore_loop] at h
    cases hb : asg b.id with
    | some t0 =>
      rw [hb] at h
      exact ih _ _ _ _ h
    | none =>
      rw [hb] at h
      rcases ih _ _ _ _ h with h' | h'
      · unfold upd_assign at h'
        split at h'
        · rw [Option.some_inj] at h'
          exact Or.inr (by rw [← h'])
        · exact Or.inl h'
      · exact Or.inr h'

theorem assign_explore_loop_mono (rand : ℕ → Cell) :
    ∀ (bombers : List Bomber) (k : ℕ) (asg : String → Option BomberTask) (bid : String),
      (asg bid).isSome = true →
      (assign_explore_loop rand bombers k asg bid).isSome = true := by
  intro bombers
  induction bombers with
  | nil => intro k asg bid h; exact h
  | cons b rest ih =>
    intro k asg bid h
    simp only [assign_explore_loop]
    cases hb : asg b.id with
    | some t0 => exact ih _ _ _ h
    | none =>
      apply ih
      unfold upd_assign
      split
      · rfl
      · exact h

theorem assign_explore_loop_total (rand : ℕ → Cell) :
    ∀ (bombers : List Bomber) (k : ℕ) (asg : String → Option BomberTask)
      (b : Bomber), b ∈ bombers →
      (assign_explore_loop rand bombers k asg b.id).isSome = true := by
  intro bombers
  induction bombers with
  | nil => intro k asg b h; cases h
  | cons b' rest ih =>
    intro k asg b hmem
    simp only [assign_explore_loop]
    cases hb : asg b'.id with
    | some t0 =>
      rcases List.mem_cons.mp hmem with rfl | hmem'
      · exact assign_explore_loop_mono rand rest k asg b.id (by simp [hb])
      · exact ih _ _ _ hmem'
    | none =>
      rcases List.mem_cons.mp hmem with rfl | hmem'
      · apply assign_explore_loop_mono
        unfold upd_assign
        rw [if_pos rfl]
        rfl
      · exact ih _ _ _ hmem'

/-- C7 (amended): target assignment iterates live units sorted by id and
greedily gives each the nearest unassigned candidate target, marking it used,
so no candidate ("bomb") target cell is assigned to two units in a tick, and
every live unit left over receives an exploration goal — but exploration
goals are independent random draws that are not deduplicated and may coincide
with another unit's goal (see the counterexample). -/
theorem claim_C7_assignment_amended :
    (∀ (bombers : List Bomber) (targets : List TargetRec) (rand : ℕ → Cell)
       (b1 b2 : String) (t1 t2 : BomberTask),
      b1 ≠ b2 →
      assign_tasks_to_bombers bombers targets rand b1 = some t1 →
      assign_tasks_to_bombers bombers targets rand b2 = some t2 →
      t1.type = TaskType.bomb → t2.type = TaskType.bomb →
      t1.target ≠ t2.target) ∧
    (∀ (bombers : List Bomber) (targets : List TargetRec) (rand : ℕ → Cell)
       (b : Bomber), b ∈ bombers → b.alive = true →
      (assign_tasks_to_bombers bombers targets rand b.id).isSome = true) := by
  constructor
  · intro bombers targets rand b1 b2 t1 t2 hne h1 h2 hty1 hty2
    by_cases hal : (bombers.filter fun b => b.alive) = []
    · simp only [assign_tasks_to_bombers] at h1
      rw [if_pos hal] at h1
      cases h1
    · simp only [assign_tasks_to_bombers] at h1 h2
      rw [if_neg hal] at h1 h2
      rcases assign_explore_loop_lookup rand _ _ _ _ _ h1 with h1' | h1'
      · rcases assign_explore_loop_lookup rand _ _ _ _ _ h2 with h2' | h2'
        · have hinv := assign_bomb_loop_inv
            (List.insertionSort bomber_id_le (bombers.filter fun b => b.alive))
            (targets.map fun t => t.pos) ∅ (fun _ => none)
            (fun bid t h => by cases h) (fun u1 u2 s1 s2 _ h _ => by cases h)
          exact hinv.2 b1 b2 t1 t2 hne h1' h2'
        · rw [hty2] at h2'
          exact TaskType.noConfusion h2'
      · rw [hty1] at h1'
        exact TaskType.noConfusion h1'
  · intro bombers targets rand b hmem halive
    have hmem' : b ∈ bombers.filter (fun b => b.alive) := List.mem_filter.mpr ⟨hmem, halive⟩
    have hal : (bombers.filter fun b => b.alive) ≠ [] := List.ne_nil_of_mem hmem'
    simp only [assign_tasks_to_bombers]
    rw [if_neg hal]
    exact assign_explore_loop_total rand _ 0 _ b hmem'

/-- Witness for C7 (amended): with two units and two candidate targets each
unit receives its own bomb target, and every live unit is assigned. -/
theorem claim_C7_assignment_amended_witness :
    (((0 : ℤ), (1 : ℤ)) : Cell) ≠ ((5, 6) : Cell) ∧
    (assign_tasks_to_bombers [bomberC7a, bomberC7b] targetsC7 (fun _ => (0, 0))
      bomberC7a.id).isSome = true :=
  ⟨claim_C7_assignment_amended.1 [bomberC7a, bomberC7b] targetsC7 (fun _ => (0, 0))
      "u1" "u2" ⟨TaskType.bomb, (0, 1)⟩ ⟨TaskType.bomb, (5, 6)⟩
      (by decide) (by decide) (by decide) rfl rfl,
    claim_C7_assignment_amended.2 [bomberC7a, bomberC7b] targetsC7 (fun _ => (0, 0))
      bomberC7a (by decide) rfl⟩

/-- Counterexample to C7 as stated: with no candidate targets both units fall
to exploration, and the random goals collide — the same cell (3, 3) is
assigned as the target of two units in the same tick. -/
theorem claim_C7_counterexample :
    assign_tasks_to_bombers [bomberC7a, bomberC7b] [] (fun _ => (3, 3)) "u1" =
      some ⟨TaskType.explore, (3, 3)⟩ ∧
    assign_tasks_to_bombers [bomberC7a, bomberC7b] [] (fun _ => (3, 3)) "u2" =
      some ⟨TaskType.explore, (3, 3)⟩ ∧
    "u1" ≠ "u2" := by
  refine ⟨by decide, by decide, by decide⟩

theorem blast_walk_spec_iff (obstacles walls : Finset Cell) (ms : ℕ × ℕ) (d : Cell) :
    ∀ (r : ℕ) (p c : Cell),
      c ∈ blast_walk p d obstacles walls ms r ↔ spec_blast_cell obstacles walls ms p d c r := by
  intro r
  induction r with
  | zero =>
    intro p c
    simp only [blast_walk, Finset.not_mem_empty, false_iff, spec_blast_cell]
    rintro ⟨k, hk1, hk0, -⟩
    omega
  | succ r ih =>
    intro p c
    have hshift : ∀ k : ℕ, ray_cell (p.1 + d.1, p.2 + d.2) d k = ray_cell p d (k + 1) := by
      intro k
      simp only [ray_cell, Prod.mk.injEq]
      push_cast
      constructor <;> ring
    have hone : ((p.1 + d.1, p.2 + d.2) : Cell) = ray_cell p d 1 := by
      simp [ray_cell]
    simp only [blast_walk, spec_blast_cell]
    split
    · rename_i hoob
      simp only [Finset.not_mem_empty, false_iff]
      rintro ⟨k, hk1, hkr, hc, hcin, hprev⟩
      rcases Nat.eq_or_lt_of_le hk1 with heq | hlt
      · subst hc
        rw [← heq, ← hone] at hcin
        exact hoob hcin
      · have hfirst := (hprev 1 le_rfl hlt).1
        rw [← hone] at hfirst
        exact hoob hfirst
    · split
      · rename_i hoob hstop
        rw [not_not] at hoob
        rw [Finset.mem_singleton]
        constructor
        · intro hc
          subst hc
          exact ⟨1, le_rfl, by omega, hone, hoob, fun j hj1 hj2 => by omega⟩
        · rintro ⟨k, hk1, hkr, hc, hcin, hprev⟩
          rcases Nat.eq_or_lt_of_le hk1 with heq | hlt
          · rw [hc, ← heq, ← hone]
          · have hfirst := hprev 1 le_rfl hlt
            rw [← hone] at hfirst
            rcases hstop with hw | ho
            · exact absurd hw hfirst.2.1
            · exact absurd ho hfirst.2.2
      · rename_i hoob hstop
        rw [not_not] at hoob
        rw [Finset.mem_insert, ih (p.1 + d.1, p.2 + d.2) c]
        simp only [spec_blast_cell]
        constructor
        · rintro (hc | ⟨k, hk1, hkr, hc, hcin, hprev⟩)
          · subst hc
            exact ⟨1, le_rfl, by omega, hone, hoob, fun j hj1 hj2 => by omega⟩
          · refine ⟨k + 1, by omega, by omega, by rwa [hshift] at hc, hcin, ?_⟩
            intro j hj1 hjk
            rcases Nat.eq_or_lt_of_le hj1 with heq | hlt
            · rw [← heq, ← hone]
              exact ⟨hoob, fun hw => hstop (Or.inl hw), fun ho => hstop (Or.inr ho)⟩
            · have hj : j - 1 + 1 = j := by omega
              have hp := hprev (j - 1) (by omega) (by omega)
              rw [hshift, hj] at hp
              exact hp
        · rintro ⟨k, hk1, hkr, hc, hcin, hprev⟩
          rcases Nat.eq_or_lt_of_le hk1 with heq | hlt
          · left
            rw [hc, ← heq, ← hone]
          · right
            refine ⟨k - 1, by omega, by omega, ?_, hcin, ?_⟩
            · rw [hc, hshift]
              congr 1
              omega
            · intro j hj1 hjk
              have hp := hprev (j + 1) (by omega) (by omega)
              rwa [hshift]

theorem mem_get_dangerous_fold {obstacles walls : Finset Cell} {ms : ℕ × ℕ} {c : Cell} :
    ∀ (bombs : List BombData) (acc : Finset Cell),
      (c ∈ bombs.foldl (fun dangerous bomb =>
        if bomb_timer_threshold < bomb.timer then dangerous
        else dangerous ∪ {bomb.pos}
          ∪ blast_walk bomb.pos (1, 0) obstacles walls ms bomb.range
          ∪ blast_walk bomb.pos (-1, 0) obstacles walls ms bomb.range
          ∪ blast_walk bomb.pos (0, 1) obstacles walls ms bomb.range
          ∪ blast_walk bomb.pos (0, -1) obstacles walls ms bomb.range) acc ↔
      (c ∈ acc ∨ ∃ b ∈ bombs, b.timer ≤ bomb_timer_threshold ∧
        (c = b.pos ∨ ∃ d ∈ api_dirs, c ∈ blast_walk b.pos d obstacles walls ms b.range))) := by
  intro bombs
  induction bombs with
  | nil => intro acc; simp
  | cons b rest ih =>
    intro acc
    rw [List.foldl_cons, ih]
    by_cases hb : bomb_timer_threshold < b.timer
    · rw [if_pos hb]
      simp only [List.mem_cons]
      constructor
      · rintro (h | ⟨b', hb', hrest⟩)
        · exact Or.inl h
        · exact Or.inr ⟨b', Or.inr hb', hrest⟩
      · rintro (h | ⟨b', hb' | hb', hrest⟩)
        · exact Or.inl h
        · subst hb'
          exact absurd hrest.1 (not_le.mpr hb)
        · exact Or.inr ⟨b', hb', hrest⟩
    · rw [if_neg hb]
      simp only [Finset.mem_union, Finset.mem_singleton, List.mem_cons, api_dirs,
        List.mem_singleton, List.not_mem_nil, or_false]
      constructor
      · rintro ((((((h | h) | h) | h) | h) | h) | ⟨b', hb', hrest⟩)
        · exact Or.inl h
        · exact Or.inr ⟨b, Or.inl rfl, le_of_not_lt hb, Or.inl h⟩
        · exact Or.inr ⟨b, Or.inl rfl, le_of_not_lt hb,
            Or.inr ⟨(1, 0), by simp, h⟩⟩
        · exact Or.inr ⟨b, Or.inl rfl, le_of_not_lt hb,
            Or.inr ⟨(-1, 0), by simp, h⟩⟩
        · exact Or.inr ⟨b, Or.inl rfl, le_of_not_lt hb,
            Or.inr ⟨(0, 1), by simp, h⟩⟩
        · exact Or.inr ⟨b, Or.inl rfl, le_of_not_lt hb,
            Or.inr ⟨(0, -1), by simp, h⟩⟩
        · exact Or.inr ⟨b', Or.inr hb', hrest⟩
      · rintro (h | ⟨b', hb' | hb', htimer, hrest⟩)
        · exact Or.inl (Or.inl (Or.inl (Or.inl (Or.inl (Or.inl h)))))
        · subst hb'
          rcases hrest with hpos | ⟨d, hd, hmem⟩
          · exact Or.inl (Or.inl (Or.inl (Or.inl (Or.inl (Or.inr hpos)))))
          · rcases hd with rfl | rfl | rfl | rfl
            · exact Or.inl (Or.inl (Or.inl (Or.inl (Or.inr hmem))))
            · exact Or.inl (Or.inl (Or.inl (Or.inr hmem)))
            · exact Or.inl (Or.inl (Or.inr hmem))
            · exact Or.inl (Or.inr hmem)
        · exact Or.inr ⟨b', hb', htimer, hrest⟩

theorem foldl_valstep_le (p : ℤ × ℤ) :
    ∀ (l : List (ℤ × ℤ × ℝ)) (a : ℝ),
      a ≤ l.foldl (fun a e => if p = (e.1, e.2.1) then max a e.2.2 else a) a := by
  intro l
  induction l with
  | nil => intro a; exact le_refl a
  | cons e t ih =>
    intro a
    rw [List.foldl_cons]
    refine le_trans ?_ (ih _)
    split
    · exact le_max_left a e.2.2
    · exact le_refl a

theorem apply_marks_ge {l : List (ℤ × ℤ × ℝ)} {x y : ℤ} {v : ℝ} (m : DMap)
    (hmem : (x, y, v) ∈ l) : v ≤ apply_marks l m (x, y) := by
  rw [apply_marks_apply]
  generalize m (x, y) = a
  induction l generalizing a with
  | nil => cases hmem
  | cons e t ih =>
    rw [List.foldl_cons]
    rcases List.mem_cons.mp hmem with heq | hmem'
    · rw [← heq]
      rw [if_pos rfl]
      exact le_trans (le_max_right a v) (foldl_valstep_le (x, y) t _)
    · exact ih hmem' _

theorem mem_get_dangerous_cells {bombs : List BombData} {obstacles walls : Finset Cell}
    {ms : ℕ × ℕ} {c : Cell} :
    c ∈ get_dangerous_cells bombs obstacles walls ms ↔
      ∃ b ∈ bombs, b.timer ≤ bomb_timer_threshold ∧
        (c = b.pos ∨ ∃ d ∈ api_dirs, c ∈ blast_walk b.pos d obstacles walls ms b.range) := by
  unfold get_dangerous_cells
  rw [mem_get_dangerous_fold]
  simp

/-- C4 (amended): the two implementations of the danger rule differ.
`get_dangerous_cells` (api.py) implements exactly the spec's rule as an
unweighted set: a cell is dangerous iff some bomb with timer at most the
imminence threshold covers it — its own cell, or a blast-arm cell within
`range` whose strictly earlier ray cells are all inside the map and free of
walls and obstacles.  `ThreatAnalyzer._mark_bomb_danger` (behaivour.py)
assigns the graded values — at least 100 at the bomb's cell and at least 80
on every cross arm cell within the radius — but for every bomb regardless of
its timer and straight through walls and obstacles, which it never consults
(see the counterexample). -/
theorem claim_C4_danger_amended :
    (∀ (bombs : List BombData) (obstacles walls : Finset Cell) (ms : ℕ × ℕ) (c : Cell),
      c ∈ get_dangerous_cells bombs obstacles walls ms ↔
        spec_dangerous bombs obstacles walls ms c) ∧
    (∀ (b : Bomb) (m : DMap), (100 : ℝ) ≤ mark_bomb_danger b m (b.pos.x, b.pos.y)) ∧
    (∀ (b : Bomb) (m : DMap) (k : ℕ), 1 ≤ k → k ≤ b.radius →
      (80 : ℝ) ≤ mark_bomb_danger b m (b.pos.x + (k : ℤ), b.pos.y) ∧
      (80 : ℝ) ≤ mark_bomb_danger b m (b.pos.x - (k : ℤ), b.pos.y) ∧
      (80 : ℝ) ≤ mark_bomb_danger b m (b.pos.x, b.pos.y + (k : ℤ)) ∧
      (80 : ℝ) ≤ mark_bomb_danger b m (b.pos.x, b.pos.y - (k : ℤ))) := by
  refine ⟨?_, ?_, ?_⟩
  · intro bombs obstacles walls ms c
    rw [mem_get_dangerous_cells]
    unfold spec_dangerous
    simp only [blast_walk_spec_iff]
  · intro b m
    exact apply_marks_ge m (List.mem_cons_self _ _)
  · intro b m k hk1 hkr
    have hkmem : k ∈ List.range' 1 b.radius := by
      rw [List.mem_range'_1]
      omega
    refine ⟨?_, ?_, ?_, ?_⟩ <;>
      refine apply_marks_ge m (List.mem_cons_of_mem _ ?_)
    · exact List.mem_append_left _ (List.mem_flatMap.mpr ⟨k, hkmem, by simp⟩)
    · exact List.mem_append_left _ (List.mem_flatMap.mpr ⟨k, hkmem, by simp⟩)
    · exact List.mem_append_right _ (List.mem_flatMap.mpr ⟨k, hkmem, by simp⟩)
    · exact List.mem_append_right _ (List.mem_flatMap.mpr ⟨k, hkmem, by simp⟩)

/-- Witness for C4 (amended). -/
theorem claim_C4_danger_amended_witness :
    (((0, 0) : Cell) ∈ get_dangerous_cells [⟨(0, 0), 1, 1⟩] ∅ ∅ (2, 2) ↔
      spec_dangerous [⟨(0, 0), 1, 1⟩] ∅ ∅ (2, 2) (0, 0)) ∧
    (100 : ℝ) ≤ mark_bomb_danger ⟨⟨0, 0⟩, 5, 1, "w"⟩ (fun _ => 0) (0, 0) ∧
    (80 : ℝ) ≤ mark_bomb_danger ⟨⟨0, 0⟩, 5, 1, "w"⟩ (fun _ => 0) (1, 0) :=
  ⟨claim_C4_danger_amended.1 [⟨(0, 0), 1, 1⟩] ∅ ∅ (2, 2) (0, 0),
    claim_C4_danger_amended.2.1 ⟨⟨0, 0⟩, 5, 1, "w"⟩ (fun _ => 0),
    (claim_C4_danger_amended.2.2 ⟨⟨0, 0⟩, 5, 1, "w"⟩ (fun _ => 0) 1
      le_rfl le_rfl).1⟩

theorem stC4_marks_eq :
    stC4.bombs.flatMap bomb_marks ++ stC4.mobs.flatMap mob_marks =
      [((2 : ℤ), (2 : ℤ), (100 : ℝ)),
       (3, 2, 80), (1, 2, 80), (4, 2, 80), (0, 2, 80),
       (2, 3, 80), (2, 1, 80), (2, 4, 80), (2, 0, 80)] := by
  rfl

/-- Counterexample to C4 as stated: the bomb of `stC4` has timer 10, above
the imminence threshold 2, yet `ThreatAnalyzer` marks its cell at danger 100;
and although a wall stands at (3, 2), the cross marking passes straight
through it, assigning danger 80 to (4, 2) beyond the wall. -/
theorem claim_C4_counterexample :
    bomb_timer_threshold < 10 ∧
    Position.mk 3 2 ∈ stC4.walls ∧
    get_danger_level (analyze_threats stC4) ⟨2, 2⟩ = 100 ∧
    get_danger_level (analyze_threats stC4) ⟨4, 2⟩ = 80 := by
  have h100 : max (0 : ℝ) 100 = 100 := max_eq_right (by norm_num)
  have h80 : max (0 : ℝ) 80 = 80 := max_eq_right (by norm_num)
  refine ⟨by norm_num [bomb_timer_threshold], by simp [stC4], ?_, ?_⟩ <;>
    rw [get_danger_level, analyze_threats_apply, stC4_marks_eq] <;>
    norm_num [Prod.mk.injEq, h100, h80]

theorem find_range'_eq_some {p : ℕ → Bool} :
    ∀ (n s k : ℕ), (List.range' s n).find? p = some k ↔
      (s ≤ k ∧ k < s + n ∧ p k = true ∧ ∀ j, s ≤ j → j < k → p j = false) := by
  intro n
  induction n with
  | zero =>
    intro s k
    simp only [List.range', List.find?_nil]
    constructor
    · intro h
      exact absurd h (by simp)
    · rintro ⟨h1, h2, -⟩
      omega
  | succ n ih =>
    intro s k
    rw [List.range'_succ]
    by_cases hp : p s
    · rw [List.find?_cons_of_pos _ hp]
      constructor
      · intro h
        rw [Option.some_inj] at h
        subst h
        exact ⟨le_rfl, by omega, hp, fun j hj1 hj2 => by omega⟩
      · rintro ⟨h1, h2, h3, h4⟩
        rcases Nat.eq_or_lt_of_le h1 with heq | hlt
        · rw [heq]
        · have := h4 s le_rfl hlt
          rw [hp] at this
          cases this
    · rw [List.find?_cons_of_neg _ hp]
      rw [ih (s + 1) k]
      constructor
      · rintro ⟨h1, h2, h3, h4⟩
        refine ⟨by omega, by omega, h3, ?_⟩
        intro j hj1 hj2
        rcases Nat.eq_or_lt_of_le hj1 with heq | hlt
        · subst heq
          exact Bool.eq_false_iff.mpr hp
        · exact h4 j (by omega) hj2
      · rintro ⟨h1, h2, h3, h4⟩
        have hks : k ≠ s := by
          intro heq
          subst heq
          exact hp h3
        exact ⟨by omega, by omega, h3, fun j hj1 hj2 => h4 j (by omega) hj2⟩

theorem ray_first_obstacle_eq_some {obstacles : Finset Cell} {pos d : Cell} {r : ℕ}
    {c : Cell} :
    ray_first_obstacle obstacles pos d r = some c ↔
      ∃ k, 1 ≤ k ∧ k ≤ r ∧ c = ray_cell pos d k ∧ c ∈ obstacles ∧
        ∀ j, 1 ≤ j → j < k → ray_cell pos d j ∉ obstacles := by
  unfold ray_first_obstacle
  rw [Option.map_eq_some']
  constructor
  · rintro ⟨k, hfind, hc⟩
    rw [find_range'_eq_some] at hfind
    obtain ⟨hk1, hk2, hk3, hk4⟩ := hfind
    rw [decide_eq_true_iff] at hk3
    refine ⟨k, hk1, by omega, hc.symm, ?_, ?_⟩
    · rw [← hc]; exact hk3
    · intro j hj1 hj2
      have := hk4 j hj1 hj2
      rw [decide_eq_false_iff_not] at this
      exact this
  · rintro ⟨k, hk1, hkr, hc, hcobs, hprev⟩
    refine ⟨k, ?_, ?_⟩
    · rw [find_range'_eq_some]
      refine ⟨hk1, by omega, ?_, ?_⟩
      · rw [decide_eq_true_iff, ← hc]
        exact hcobs
      · intro j hj1 hj2
        rw [decide_eq_false_iff_not]
        exact hprev j hj1 hj2
    · exact hc.symm

theorem mem_destroyed_list {obstacles : Finset Cell} {pos : Cell} {r : ℕ} {c : Cell} :
    c ∈ destroyed_list obstacles pos r ↔
      c ∈ obstacles ∧ destroyed_spec_pred obstacles pos r c := by
  unfold destroyed_list destroyed_spec_pred
  rw [List.mem_filterMap]
  constructor
  · rintro ⟨d, hd, hsome⟩
    rw [ray_first_obstacle_eq_some] at hsome
    obtain ⟨k, hk1, hkr, hc, hcobs, hprev⟩ := hsome
    refine ⟨hcobs, d, hd, k, ?_, hc, ?_⟩
    · rw [Finset.mem_Icc]; omega
    · intro j hj
      rw [Finset.mem_Ico] at hj
      exact hprev j hj.1 hj.2
  · rintro ⟨hcobs, d, hd, k, hk, hc, hprev⟩
    rw [Finset.mem_Icc] at hk
    refine ⟨d, hd, ?_⟩
    rw [ray_first_obstacle_eq_some]
    refine ⟨k, hk.1, hk.2, hc, hcobs, ?_⟩
    intro j hj1 hj2
    exact hprev j (by rw [Finset.mem_Ico]; omega)

theorem destroyed_list_toFinset {obstacles : Finset Cell} {pos : Cell} {r : ℕ} :
    (destroyed_list obstacles pos r).toFinset = destroyed_spec obstacles pos r := by
  ext c
  rw [List.mem_toFinset, mem_destroyed_list, destroyed_spec, Finset.mem_filter]

theorem destroyed_list_length_le (obstacles : Finset Cell) (pos : Cell) (r : ℕ) :
    (destroyed_list obstacles pos r).length ≤ 4 := by
  unfold destroyed_list
  exact le_trans (List.length_filterMap_le _ _) (by simp [fbt_dirs])

theorem fbt_scan_inv (obstacles : Finset Cell) (r : ℕ) :
    ∀ (cells : List Cell) (acc : Finset (Finset Cell) × List TargetRec),
      (∀ t ∈ acc.2, t.destroyed ∈ acc.1 ∧
        t.destroyed = destroyed_spec obstacles t.pos r ∧ t.destroyed.Nonempty ∧
        t.destroyed.card ≤ 4 ∧
        t.score = t.destroyed.card * (t.destroyed.card + 1) / 2) →
      List.Pairwise (fun a b => a.destroyed ≠ b.destroyed) acc.2 →
      (∀ fs ∈ acc.1, ∃ t ∈ acc.2, t.destroyed = fs) →
      (∀ t ∈ (cells.foldl (fbt_step obstacles r) acc).2,
          t.destroyed ∈ (cells.foldl (fbt_step obstacles r) acc).1 ∧
          t.destroyed = destroyed_spec obstacles t.pos r ∧ t.destroyed.Nonempty ∧
          t.destroyed.card ≤ 4 ∧
          t.score = t.destroyed.card * (t.destroyed.card + 1) / 2) ∧
      List.Pairwise (fun a b => a.destroyed ≠ b.destroyed)
        (cells.foldl (fbt_step obstacles r) acc).2 ∧
      (∀ fs ∈ (cells.foldl (fbt_step obstacles r) acc).1,
          ∃ t ∈ (cells.foldl (fbt_step obstacles r) acc).2, t.destroyed = fs) ∧
      acc.1 ⊆ (cells.foldl (fbt_step obstacles r) acc).1 ∧
      (∀ c ∈ cells, (destroyed_spec obstacles c r).Nonempty →
        destroyed_spec obstacles c r ∈ (cells.foldl (fbt_step obstacles r) acc).1) := by
  intro cells
  induction cells with
  | nil =>
    intro acc h1 h2 h3
    exact ⟨h1, h2, h3, Finset.Subset.refl _,
      fun c hc => absurd hc (List.not_mem_nil c)⟩
  | cons cell rest ih =>
    intro acc h1 h2 h3
    simp only [List.foldl_cons]
    have hfr : ((destroyed_list obstacles cell r).take 4).toFinset =
        destroyed_spec obstacles cell r := by
      rw [List.take_of_length_le (destroyed_list_length_le obstacles cell r),
        destroyed_list_toFinset]
    by_cases hdl : destroyed_list obstacles cell r = []
    · have hstep : fbt_step obstacles r acc cell = acc := by
        simp only [fbt_step, if_pos hdl]
      rw [hstep]
      obtain ⟨g1, g2, g3, g4, g5⟩ := ih acc h1 h2 h3
      refine ⟨g1, g2, g3, g4, ?_⟩
      intro c hc hne
      rcases List.mem_cons.mp hc with rfl | hc'
      · exfalso
        rw [← hfr, hdl] at hne
        simp at hne
      · exact g5 c hc' hne
    · by_cases hseen : ((destroyed_list obstacles cell r).take 4).toFinset ∈ acc.1
      · have hstep : fbt_step obstacles r acc cell = acc := by
          simp only [fbt_step, if_neg hdl, if_pos hseen]
        rw [hstep]
        obtain ⟨g1, g2, g3, g4, g5⟩ := ih acc h1 h2 h3
        refine ⟨g1, g2, g3, g4, ?_⟩
        intro c hc hne
        rcases List.mem_cons.mp hc with rfl | hc'
        · exact g4 (hfr ▸ hseen)
        · exact g5 c hc' hne
      · have hstep : fbt_step obstacles r acc cell =
            (insert ((destroyed_list obstacles cell r).take 4).toFinset acc.1,
             acc.2 ++ [⟨cell,
               ((destroyed_list obstacles cell r).take 4).toFinset.card *
                 (((destroyed_list obstacles cell r).take 4).toFinset.card + 1) / 2,
               ((destroyed_list obstacles cell r).take 4).toFinset⟩]) := by
          simp only [fbt_step, if_neg hdl, if_neg hseen]
        rw [hstep]
        have hnonempty : ((destroyed_list obstacles cell r).take 4).toFinset.Nonempty := by
          rcases List.exists_cons_of_ne_nil hdl with ⟨a, l', hal⟩
          refine ⟨a, ?_⟩
          rw [hal]
          simp [List.mem_toFinset]
        have hcard : ((destroyed_list obstacles cell r).take 4).toFinset.card ≤ 4 :=
          le_trans (List.toFinset_card_le _) (List.length_take_le _ _)
        have h1' : ∀ t ∈ acc.2 ++ [(⟨cell,
              ((destroyed_list obstacles cell r).take 4).toFinset.card *
                (((destroyed_list obstacles cell r).take 4).toFinset.card + 1) / 2,
              ((destroyed_list obstacles cell r).take 4).toFinset⟩ : TargetRec)],
            t.destroyed ∈ insert ((destroyed_list obstacles cell r).take 4).toFinset acc.1 ∧
            t.destroyed = destroyed_spec obstacles t.pos r ∧ t.destroyed.Nonempty ∧
            t.destroyed.card ≤ 4 ∧
            t.score = t.destroyed.card * (t.destroyed.card + 1) / 2 := by
          intro t ht
          rcases List.mem_append.mp ht with ht' | ht'
          · obtain ⟨a1, a2, a3, a4, a5⟩ := h1 t ht'
            exact ⟨Finset.mem_insert_of_mem a1, a2, a3, a4, a5⟩
          · rcases List.mem_singleton.mp ht' with rfl
            exact ⟨Finset.mem_insert_self _ _, hfr, hnonempty, hcard, rfl⟩
        have h2' : List.Pairwise (fun a b => a.destroyed ≠ b.destroyed)
            (acc.2 ++ [(⟨cell,
              ((destroyed_list obstacles cell r).take 4).toFinset.card *
                (((destroyed_list obstacles cell r).take 4).toFinset.card + 1) / 2,
              ((destroyed_list obstacles cell r).take 4).toFinset⟩ : TargetRec)]) := by
          rw [List.pairwise_append]
          refine ⟨h2, List.pairwise_singleton _ _, ?_⟩
          intro a ha b hb
          rcases List.mem_singleton.mp hb with rfl
          intro hcontra
          have hmem : a.destroyed ∈ acc.1 := (h1 a ha).1
          rw [hcontra] at hmem
          exact hseen hmem
        have h3' : ∀ fs ∈ insert ((destroyed_list obstacles cell r).take 4).toFinset acc.1,
            ∃ t ∈ acc.2 ++ [(⟨cell,
              ((destroyed_list obstacles cell r).take 4).toFinset.card *
                (((destroyed_list obstacles cell r).take 4).toFinset.card + 1) / 2,
              ((destroyed_list obstacles cell r).take 4).toFinset⟩ : TargetRec)],
              t.destroyed = fs := by
          intro fs hfs
          rcases Finset.mem_insert.mp hfs with rfl | hfs'
          · exact ⟨_, List.mem_append_right _ (List.mem_singleton_self _), rfl⟩
          · obtain ⟨t, ht, hteq⟩ := h3 fs hfs'
            exact ⟨t, List.mem_append_left _ ht, hteq⟩
        obtain ⟨g1, g2, g3, g4, g5⟩ := ih
          (insert ((destroyed_list obstacles cell r).take 4).toFinset acc.1,
            acc.2 ++ [⟨cell,
              ((destroyed_list obstacles cell r).take 4).toFinset.card *
                (((destroyed_list obstacles cell r).take 4).toFinset.card + 1) / 2,
              ((destroyed_list obstacles cell r).take 4).toFinset⟩]) h1' h2' h3'
        refine ⟨g1, g2, g3,
          Finset.Subset.trans (Finset.subset_insert _ _) g4, ?_⟩
        intro c hc hne
        rcases List.mem_cons.mp hc with rfl | hc'
        · exact g4 (hfr ▸ Finset.mem_insert_self _ _)
        · exact g5 c hc' hne

/-- C6 (amended): `find_bomb_targets` computes, for every map cell, the set
of obstacles a bomb there would destroy by walking each of the 4 axis rays
up to the blast radius and stopping on the first OBSTACLE only — the ray
consults neither walls nor map bounds, so a blast line passes straight
through walls, unlike the bomb model's stop-on-wall rule.  The rest of the
claim holds: candidates destroying an identical obstacle set collapse to
one representative (the returned destroyed sets are pairwise distinct, and
every nonempty destroyable set reachable from some map cell is
represented), each kept candidate destroys between 1 and 4 obstacles and is
scored `n * (n + 1) / 2 ≤ 10`, and the result is sorted by descending
score. -/
theorem claim_C6_targets_amended (arena : ArenaLists) (mapSize : ℕ × ℕ) (r : ℕ) :
    List.Pairwise (fun a b => a.destroyed ≠ b.destroyed)
      (find_bomb_targets arena mapSize r) ∧
    List.Sorted target_le (find_bomb_targets arena mapSize r) ∧
    (∀ t ∈ find_bomb_targets arena mapSize r,
      t.destroyed = destroyed_spec arena.obstacles.toFinset t.pos r ∧
      t.destroyed.Nonempty ∧ t.destroyed ⊆ arena.obstacles.toFinset ∧
      t.destroyed.card ≤ 4 ∧
      t.score = t.destroyed.card * (t.destroyed.card + 1) / 2 ∧ t.score ≤ 10) ∧
    (∀ c ∈ cell_grid mapSize,
      (destroyed_spec arena.obstacles.toFinset c r).Nonempty →
      ∃ t ∈ find_bomb_targets arena mapSize r,
        t.destroyed = destroyed_spec arena.obstacles.toFinset c r) := by
  have hsymm : ∀ {a b : TargetRec},
      a.destroyed ≠ b.destroyed → b.destroyed ≠ a.destroyed :=
    fun h he => h he.symm
  by_cases hobs : arena.obstacles.toFinset = ∅
  · have hres : find_bomb_targets arena mapSize r = [] := by
      simp only [find_bomb_targets, if_pos hobs]
    rw [hres]
    refine ⟨List.Pairwise.nil, List.sorted_nil, by simp, ?_⟩
    intro c hc hne
    rw [hobs] at hne
    simp [destroyed_spec] at hne
  · have hres : find_bomb_targets arena mapSize r =
        List.insertionSort target_le
          ((cell_grid mapSize).foldl
            (fbt_step arena.obstacles.toFinset r) (∅, [])).2 := by
      simp only [find_bomb_targets, if_neg hobs]
    obtain ⟨g1, g2, g3, g4, g5⟩ := fbt_scan_inv arena.obstacles.toFinset r
      (cell_grid mapSize) (∅, [])
      (fun t ht => absurd ht (List.not_mem_nil t))
      List.Pairwise.nil
      (fun fs hfs => absurd hfs (Finset.not_mem_empty fs))
    have hperm := List.perm_insertionSort target_le
      ((cell_grid mapSize).foldl (fbt_step arena.obstacles.toFinset r) (∅, [])).2
    rw [hres]
    refine ⟨?_, ?_, ?_, ?_⟩
    · exact (List.Perm.pairwise_iff hsymm hperm).mpr g2
    · exact List.sorted_insertionSort target_le _
    · intro t ht
      obtain ⟨a1, a2, a3, a4, a5⟩ := g1 t (hperm.mem_iff.mp ht)
      refine ⟨a2, a3, ?_, a4, a5, ?_⟩
      · rw [a2, destroyed_spec]
        exact Finset.filter_subset _ _
      · rw [a5]
        have h20 : t.destroyed.card * (t.destroyed.card + 1) ≤ 4 * 5 :=
          Nat.mul_le_mul a4 (Nat.succ_le_succ a4)
        exact le_trans (Nat.div_le_div_right h20) (by norm_num)
    · intro c hc hne
      obtain ⟨t, ht, hteq⟩ := g3 _ (g5 c hc hne)
      exact ⟨t, hperm.mem_iff.mpr ht, hteq⟩

/-- C6 witness: on `arenaC6` with a 2 by 4 map and radius 2, cell (1, 2) can
destroy the obstacle (0, 2), so completeness yields a target with exactly
that destroyed set. -/
theorem claim_C6_targets_amended_witness :
    (((1, 2) : Cell) ∈ cell_grid (2, 4) ∧
      (destroyed_spec arenaC6.obstacles.toFinset ((1 : ℤ), (2 : ℤ)) 2).Nonempty) ∧
    ∃ t ∈ find_bomb_targets arenaC6 (2, 4) 2,
      t.destroyed = destroyed_spec arenaC6.obstacles.toFinset ((1 : ℤ), (2 : ℤ)) 2 :=
  ⟨⟨by decide, by decide⟩,
    (claim_C6_targets_amended arenaC6 (2, 4) 2).2.2.2 (1, 2) (by decide) (by decide)⟩

/-- C6 counterexample: in `arenaC6` the wall at (0, 1) stands between the
candidate cell (0, 0) and the obstacle (0, 2), yet `find_bomb_targets`
emits the target at (0, 0) destroying (0, 2): its blast ray passed straight
through the wall, contradicting the claimed stop-on-wall rule of the bomb
model. -/
theorem claim_C6_counterexample :
    (⟨(0, 0), 1, {((0 : ℤ), (2 : ℤ))}⟩ : TargetRec) ∈
      find_bomb_targets arenaC6 (1, 3) 2 ∧
    ((0 : ℤ), (1 : ℤ)) ∈ arenaC6.walls ∧
    ((0 : ℤ), (1 : ℤ)) ∉ arenaC6.obstacles := by
  decide
